import Mathlib

/-!
Verification development for the ZNP compute/storage coordination core.

The Rust sources under `src/` are embedded shallowly: pure functions become
Lean functions, stateful methods become explicit state-passing functions,
`BTreeMap`/`HashMap` values become association lists, machine integers become
`Nat` (no arithmetic in the embedded fragment overflows), and fallible code
returns `Option`.

Code of the repository that is declared in `lib.rs` but whose file is not in
the provided tree (`utils.rs`, `interfaces.rs`, `constants.rs`,
`block_pipeline.rs`, `raft_util.rs`) and the external `naom` primitives are
modelled from the specification; each such definition carries a doc comment
starting with `Modelled from the spec:`. Hash functions (SHA3-256 digests)
are abstracted as function parameters where a claim does not depend on the
concrete digest.
-/

namespace ZNP

/-! ## Association-list maps

`BTreeMap<K, V>` / `HashMap<K, V>` are embedded as `List (K × V)` with unique
keys maintained by construction. `minsert` replaces an existing binding in
place (as `BTreeMap::insert` / map `extend` do) and otherwise appends.
-/

/-- Lookup of a key in an association list (first binding wins). -/
def mlookup {α β : Type} [DecidableEq α] : List (α × β) → α → Option β
  | [], _ => none
  | (k, v) :: rest, key => if k = key then some v else mlookup rest key

/-- Key membership in an association list. -/
def mcontains {α β : Type} [DecidableEq α] (l : List (α × β)) (key : α) : Bool :=
  (mlookup l key).isSome

/-- Map insertion: replace the binding in place when the key is present,
append a new binding otherwise (`BTreeMap::insert` semantics). -/
def minsert {α β : Type} [DecidableEq α] : List (α × β) → α → β → List (α × β)
  | [], key, v => [(key, v)]
  | (k, w) :: rest, key, v =>
    if k = key then (k, v) :: rest else (k, w) :: minsert rest key v

/-- Map extension by a list of bindings (`BTreeMap::extend` semantics:
later bindings overwrite earlier ones). -/
def mextend {α β : Type} [DecidableEq α] (l adds : List (α × β)) : List (α × β) :=
  adds.foldl (fun acc p => minsert acc p.1 p.2) l

/-- Map removal returning the removed value (`BTreeMap::remove` semantics). -/
def mremove {α β : Type} [DecidableEq α] : List (α × β) → α → List (α × β) × Option β
  | [], _ => ([], none)
  | (k, v) :: rest, key =>
    if k = key then (rest, some v)
    else
      let r := mremove rest key
      ((k, v) :: r.1, r.2)

/-- Append of two maps, second argument's bindings overwriting
(`BTreeMap::append` semantics). -/
def mappend {α β : Type} [DecidableEq α] (l adds : List (α × β)) : List (α × β) :=
  mextend l adds

/-- Set insertion for a list used as a finite set (`BTreeSet::insert`):
no-op when the element is present, returns whether it was inserted. -/
def sinsert {α : Type} [DecidableEq α] (s : List α) (x : α) : List α × Bool :=
  if x ∈ s then (s, false) else (s ++ [x], true)

/-! ## Data model (spec §3)

`naom` primitives are external to this repository; they are modelled from the
specification's data model. Fields not consulted by any embedded operation
(script signatures, DRUID side information, block version/bits/nonce/seed)
are omitted.
-/

/-- Modelled from the spec: an outpoint is a pair `(tx_hash, index)` uniquely
naming a transaction output (§3, naom `OutPoint`). -/
structure OutPoint where
  t_hash : String
  n : Nat
deriving DecidableEq, Repr

/-- Modelled from the spec: a transaction input carries an optional previous
outpoint (§3, naom `TxIn`; the script signature is omitted). -/
structure TxIn where
  previous_out : Option OutPoint
deriving DecidableEq, Repr

/-- Modelled from the spec: a transaction output carries an asset amount, an
optional script public key, and a locktime (§3, naom `TxOut`; the token
component of the asset value is kept as `amount`). -/
structure TxOut where
  amount : Nat
  script_public_key : Option String
  locktime : Nat
deriving DecidableEq, Repr

/-- Modelled from the spec: a transaction is an ordered list of inputs and an
ordered list of outputs (§3, naom `Transaction`; version and DRUID side
information are omitted). -/
structure Transaction where
  inputs : List TxIn
  outputs : List TxOut
deriving DecidableEq, Repr

/-- Modelled from the spec: a coinbase transaction has exactly one input with
no previous outpoint (§3, naom `Transaction::is_coinbase`). -/
def Transaction.is_coinbase (tx : Transaction) : Bool :=
  tx.inputs.length == 1 && tx.inputs.all (fun i => i.previous_out == none)

/-- Source `UtxoSet` from `interfaces.rs`: a map from outpoints to outputs. -/
abbrev UtxoSet := List (OutPoint × TxOut)

/-- Reverse index: script public key to the outpoints carrying it
(`HashMap<String, Vec<OutPoint>>` in `tracked_utxo.rs`). -/
abbrev PkCache := List (String × List OutPoint)

/-- Modelled from the spec: enumeration of a block's transaction map as
`(tx_hash, out_index) → txout` pairs (§4.1 `extend`, naom
`get_tx_out_with_out_point_cloned`). -/
def get_tx_out_with_out_point (block_tx : List (String × Transaction)) :
    List (OutPoint × TxOut) :=
  block_tx.flatMap fun p =>
    p.2.outputs.enum.map fun io => (OutPoint.mk p.1 io.1, io.2)

/-- Modelled from the spec: enumeration of a block's transaction map as
`(script_public_key, outpoint)` pairs for outputs carrying a script public
key (§4.1 `extend`, `utils.rs` `get_pk_with_out_point_cloned`). -/
def get_pk_with_out_point (block_tx : List (String × Transaction)) :
    List (String × OutPoint) :=
  block_tx.flatMap fun p =>
    p.2.outputs.enum.filterMap fun io =>
      io.2.script_public_key.map fun pk => (pk, OutPoint.mk p.1 io.1)

/-- Modelled from the spec: enumeration of a UTXO set as
`(script_public_key, outpoint)` pairs (`utils.rs`
`get_pk_with_out_point_from_utxo_set_cloned`). -/
def get_pk_with_out_point_from_utxo_set (base : UtxoSet) :
    List (String × OutPoint) :=
  base.filterMap fun e => e.2.script_public_key.map fun pk => (pk, e.1)

/-! ## Tracked UTXO set (`tracked_utxo.rs`) -/

/-- Source `pk_cache.entry(spk).or_default().push(op)`: append the outpoint to the
key's vector in place, creating the entry when absent. -/
def pk_push (cache : PkCache) (spk : String) (op : OutPoint) : PkCache :=
  match cache with
  | [] => [(spk, [op])]
  | (k, ops) :: rest =>
    if k = spk then (k, ops ++ [op]) :: rest else (k, ops) :: pk_push rest spk op

/-- Source `extend_pk_cache_vec` from `tracked_utxo.rs`: push each
`(script_public_key, outpoint)` pair into the cache. -/
def extend_pk_cache_vec (cache : PkCache) (spk : List (String × OutPoint)) :
    PkCache :=
  spk.foldl (fun c p => pk_push c p.1 p.2) cache

/-- Source `create_pk_cache_from_base` from `tracked_utxo.rs`. -/
def create_pk_cache_from_base (base : UtxoSet) : PkCache :=
  extend_pk_cache_vec [] (get_pk_with_out_point_from_utxo_set base)

/-- Source `TrackedUtxoSet` from `tracked_utxo.rs`: the forward map `base` plus the
reverse index `pk_cache`. -/
structure TrackedUtxoSet where
  base : UtxoSet
  pk_cache : PkCache
deriving DecidableEq, Repr

instance : Inhabited TrackedUtxoSet := ⟨⟨[], []⟩⟩

/-- Source `TrackedUtxoSet::new` from `tracked_utxo.rs`. -/
def TrackedUtxoSet.new (base : UtxoSet) : TrackedUtxoSet :=
  ⟨base, create_pk_cache_from_base base⟩

/-- Source `TrackedUtxoSet::extend_tracked_utxo_set` from `tracked_utxo.rs`:
extend the forward map and push the reverse entries. -/
def TrackedUtxoSet.extend_tracked_utxo_set (t : TrackedUtxoSet)
    (block_tx : List (String × Transaction)) : TrackedUtxoSet :=
  { base := mextend t.base (get_tx_out_with_out_point block_tx)
    pk_cache := extend_pk_cache_vec t.pk_cache (get_pk_with_out_point block_tx) }

/-- Source `TrackedUtxoSet::remove_tracked_utxo_entry` from `tracked_utxo.rs`:
`base.remove(key).and_then(|txout| txout.script_public_key).and_then(|spk|
pk_cache.remove(&spk))`. -/
def TrackedUtxoSet.remove_tracked_utxo_entry (t : TrackedUtxoSet)
    (key : OutPoint) : TrackedUtxoSet × Option (List OutPoint) :=
  let rb := mremove t.base key
  match rb.2 with
  | none => (⟨rb.1, t.pk_cache⟩, none)
  | some txout =>
    match txout.script_public_key with
    | none => (⟨rb.1, t.pk_cache⟩, none)
    | some spk =>
      let rc := mremove t.pk_cache spk
      (⟨rb.1, rc.1⟩, rc.2)

/-! ## Blocks (spec §3) -/

/-- Modelled from the spec: block header (§3, naom `BlockHeader`); version,
bits, nonce and seed value are omitted (unused by the embedded operations). -/
structure BlockHeader where
  b_num : Nat
  previous_hash : Option String
  merkle_root_hash : String
deriving DecidableEq, Repr

/-- Modelled from the spec: a block is a header plus an ordered list of
transaction hashes (§3, naom `Block`). -/
structure Block where
  header : BlockHeader
  transactions : List String
deriving DecidableEq, Repr

/-! ## UNiCORN engine (`unicorn.rs`)

`rug::Integer` is embedded as `Int` for the struct fields; the loop values
are non-negative and are computed on `Nat`. `div_rem_floor(p).1` for a
positive modulus `p` is `Int.emod`.
-/

/-- Source `Unicorn` from `unicorn.rs`. -/
structure Unicorn where
  iterations : Nat
  security_level : Nat
  seed : Int
  modulus : Int
  witness : Int
deriving DecidableEq, Repr

/-- Modulo-exponentiation (`rug` `pow_mod` with non-negative exponent). -/
def pow_mod (base e m : Nat) : Nat :=
  (base ^ e) % m

/-- Source `Unicorn::xor_for_overflow` from `unicorn.rs`: toggle the low bit, and
toggle again while the value is `0` or at least the modulus. Every call site
passes a value in `[0, p)`, for which the source loop runs at most twice
(the second toggle restores the in-range input); the embedding implements
exactly those two iterations. -/
def xor_for_overflow (p w : Nat) : Nat :=
  let w1 := w ^^^ 1
  if p ≤ w1 ∨ w1 = 0 then w1 ^^^ 1 else w1

/-- Modelled from the spec: `rug` `is_probably_prime` with `MR_PRIME_ITERS`
rounds (§4.4; `constants.rs` is not in the tree). Modelled as exact
primality, with which Miller-Rabin agrees on the inputs used here: a true
prime is never rejected. -/
def is_probably_prime (m : Int) : Bool :=
  decide (Nat.Prime m.toNat)

/-- Source `Unicorn::is_valid_modulus` from `unicorn.rs`: `p ≥ 2^(2k)` and the
probabilistic primality check does not answer `No`. -/
def Unicorn.is_valid_modulus (u : Unicorn) : Bool :=
  decide ((2 : Int) ^ (2 * u.security_level) ≤ u.modulus) && is_probably_prime u.modulus

/-- One iteration of `Unicorn::eval`'s loop: `xor_for_overflow` then the slow
modular square root `w ← w^((p+1)/4) mod p`. -/
def sloth_eval_step (p e w : Nat) : Nat :=
  pow_mod (xor_for_overflow p w) e p

/-- Source `Unicorn::eval` from `unicorn.rs`: `None` on an invalid modulus,
otherwise iterate the slow square root from `seed mod p` and record the
witness. The hash `g` of the witness is omitted (not consulted by any
claim). -/
def Unicorn.eval (u : Unicorn) : Option (Unicorn × Int) :=
  if u.is_valid_modulus then
    let p : Nat := u.modulus.toNat
    let exponent : Nat := (p + 1) / 4
    let w : Nat := (sloth_eval_step p exponent)^[u.iterations]
      ((u.seed.emod u.modulus).toNat)
    some ({ u with witness := (w : Int) }, (w : Int))
  else
    none

/-- One iteration of `Unicorn::verify`'s loop: square modulo `p`, negate
modulo `p` (floor remainder), then `xor_for_overflow`. -/
def sloth_verify_step (p : Int) (w : Int) : Int :=
  let sq : Int := (w * w).emod p
  let neg : Int := (-sq).emod p
  (xor_for_overflow p.toNat neg.toNat : Nat)

/-- Source `Unicorn::verify` from `unicorn.rs`: iterate the fast inverse from the
witness and compare with `seed mod p`. -/
def Unicorn.verify (u : Unicorn) (seed witness : Int) : Bool :=
  decide ((sloth_verify_step u.modulus)^[u.iterations] witness = seed.emod u.modulus)

/-! ## Storage consensused state (`storage_raft.rs`)

The SHA3-256 digest of a group's serialized common component is abstracted
as a parameter `h : CommonBlockInfo → Nat`; `current_block_completed_parts`
(`BTreeMap<Vec<u8>, CompleteBlock>`) is an association list kept sorted in
strictly ascending digest order, mirroring `BTreeMap` iteration order.
-/

/-- Source `MinedBlockExtraInfo` from `storage_raft.rs`. -/
structure MinedBlockExtraInfo where
  nonce : List Nat
  mining_tx : Transaction
deriving DecidableEq, Repr

/-- Source `CommonBlockInfo` from `storage_raft.rs`. -/
structure CommonBlockInfo where
  block_idx : Nat
  block : Block
  block_txs : List (String × Transaction)
deriving DecidableEq, Repr

/-- Source `CompleteBlock` from `storage_raft.rs`: the common component plus the
per-proposer extras. -/
structure CompleteBlock where
  common : CommonBlockInfo
  per_node : List (Nat × MinedBlockExtraInfo)
deriving DecidableEq, Repr

/-- Source `StorageConsensused` from `storage_raft.rs`. -/
structure StorageConsensused where
  sufficient_majority : Nat
  current_block_idx : Nat
  current_block_complete_timeout_peer_ids : List Nat
  current_block_completed_parts : List (Nat × CompleteBlock)
deriving DecidableEq, Repr

/-- Source `StorageConsensused::is_current_block`. -/
def StorageConsensused.is_current_block (s : StorageConsensused)
    (block_idx : Nat) : Bool :=
  block_idx == s.current_block_idx

/-- Source `StorageConsensused::has_block_ready_to_store`: a sufficient majority of
distinct timeout votes, and some part group holding a sufficient majority of
per-node extras. -/
def StorageConsensused.has_block_ready_to_store (s : StorageConsensused) : Bool :=
  if s.current_block_complete_timeout_peer_ids.length < s.sufficient_majority then
    false
  else
    let completed_blocks_len :=
      (s.current_block_completed_parts.map fun e => e.2.per_node.length).foldl
        max 0
    s.sufficient_majority ≤ completed_blocks_len

/-- Source `StorageConsensused::append_received_block_timeout`: record the
proposer's timeout vote (`BTreeSet::insert`). -/
def StorageConsensused.append_received_block_timeout (s : StorageConsensused)
    (proposer_id : Nat) : StorageConsensused :=
  { s with
    current_block_complete_timeout_peer_ids :=
      (sinsert s.current_block_complete_timeout_peer_ids proposer_id).1 }

/-- Insert or update a part group at its digest key, preserving the strictly
ascending key order (`BTreeMap::entry(..).or_insert(..)` followed by a
mutation of the entry). -/
def sorted_insert_with (parts : List (Nat × CompleteBlock)) (k : Nat)
    (init : CompleteBlock) (upd : CompleteBlock → CompleteBlock) :
    List (Nat × CompleteBlock) :=
  match parts with
  | [] => [(k, upd init)]
  | (k', v) :: rest =>
    if k = k' then (k', upd v) :: rest
    else if k < k' then (k, upd init) :: (k', v) :: rest
    else (k', v) :: sorted_insert_with rest k init upd

/-- Source `StorageConsensused::append_received_block`: hash the common component,
group by the digest, and record the proposer's extras in that group. -/
def StorageConsensused.append_received_block (h : CommonBlockInfo → Nat)
    (s : StorageConsensused) (proposer_id : Nat) (common : CommonBlockInfo)
    (node_info : MinedBlockExtraInfo) : StorageConsensused :=
  let block_hash := h common
  { s with
    current_block_completed_parts :=
      sorted_insert_with s.current_block_completed_parts block_hash
        { common := common, per_node := [] }
        (fun cb => { cb with per_node := minsert cb.per_node proposer_id node_info }) }

/-- Rust `Iterator::max_by_key` on the part groups (key: number of per-node
extras): the maximum, with the later — in ascending digest order the larger
digest — of equally sized groups winning. -/
def max_by_part_len : List (Nat × CompleteBlock) → Option (Nat × CompleteBlock)
  | [] => none
  | e :: rest =>
    match max_by_part_len rest with
    | none => some e
    | some m => if e.2.per_node.length ≤ m.2.per_node.length then some m else some e

/-- Source `StorageConsensused::generate_complete_block`: advance the block index,
empty the timeout-vote set and the accumulator, and return the part group
with the most per-node extras. The source unwraps; the embedding returns
`none` exactly when the accumulator is empty. -/
def StorageConsensused.generate_complete_block (s : StorageConsensused) :
    StorageConsensused × Option CompleteBlock :=
  ({ s with
      current_block_idx := s.current_block_idx + 1
      current_block_complete_timeout_peer_ids := []
      current_block_completed_parts := [] },
   (max_by_part_len s.current_block_completed_parts).map (·.2))

/-- Source `StorageRaftItem` from `storage_raft.rs`; a `PartBlock` carries the
sending peer's common component and extras. -/
inductive StorageRaftItem where
  | PartBlock (common : CommonBlockInfo) (per_node : MinedBlockExtraInfo)
  | CompleteBlock (idx : Nat)
deriving DecidableEq, Repr

/-- The per-item dispatch of `StorageRaft::received_commit`: stale block
indices are ignored; a `PartBlock` accumulates in its digest group; a
`CompleteBlock` records a timeout vote. -/
def StorageConsensused.received_item (h : CommonBlockInfo → Nat)
    (s : StorageConsensused) (proposer_id : Nat) (item : StorageRaftItem) :
    StorageConsensused :=
  match item with
  | .PartBlock common per_node =>
    if s.is_current_block common.block_idx then
      s.append_received_block h proposer_id common per_node
    else s
  | .CompleteBlock idx =>
    if s.is_current_block idx then s.append_received_block_timeout proposer_id
    else s

/-! ## Compute consensused state (`compute_raft.rs`)

`current_block_stored_info` (`BTreeMap<Vec<u8>, (AccumulatingBlockStoredInfo,
BTreeSet<u64>)>`, keyed by the SHA3-256 digest of the serialized info) is
embedded keyed by the info value itself: the digest determines and is
determined by the serialized value (modulo SHA3 collisions). `calculate_reward`
(`utils.rs`, "halving-style schedule — exact curve is a parameter" per the
spec) is a function parameter `crw`.
-/

/-- Modelled from the spec: `BlockStoredInfo` from `interfaces.rs` —
`{block_hash, block_num, nonce, merkle_hash, mining_transactions, shutdown}`
(§4.9 and the `compute_raft.rs` tests). -/
structure BlockStoredInfo where
  block_hash : String
  block_num : Nat
  nonce : List Nat
  merkle_hash : String
  mining_transactions : List (String × Transaction)
  shutdown : Bool
deriving DecidableEq, Repr

/-- Modelled from the spec: `WinningPoWInfo` from `interfaces.rs` —
`{nonce, coinbase, p_value, d_value}` (§3; the opaque tie-breaker values are
kept abstract as naturals). -/
structure WinningPoWInfo where
  nonce : List Nat
  coinbase : Transaction
  p_value : Nat
  d_value : Nat
deriving DecidableEq, Repr

/-- Modelled from the spec: the mining pipeline phase tag
(Intake → ClosedForPoW → Winner → Reset, §3). -/
inductive MiningPipelinePhase where
  | Intake
  | ClosedForPoW
  | Winner
  | Reset
deriving DecidableEq, Repr

/-- Modelled from the spec: `MiningPipelineInfo` from `block_pipeline.rs` —
the intake set of participant addresses, the per-participant winning PoW
submissions, the UNiCORN instance, and a phase tag (§3). -/
structure MiningPipelineInfo where
  participants : List Nat
  winning_pow : List (Nat × WinningPoWInfo)
  unicorn : Unicorn
  phase : MiningPipelinePhase
deriving DecidableEq, Repr

instance : Inhabited MiningPipelineInfo :=
  ⟨⟨[], [], ⟨0, 0, 0, 0, 0⟩, .Intake⟩⟩

/-- Modelled from the spec: `MiningPipelineInfo::add_to_participants` —
insert the address into the intake set (§4.5; duplicate insertions do not
grow the set). -/
def MiningPipelineInfo.add_to_participants (pl : MiningPipelineInfo)
    (addr : Nat) : MiningPipelineInfo :=
  { pl with participants := (sinsert pl.participants addr).1 }

/-- Modelled from the spec: `MiningPipelineInfo::add_to_winning_pow` — up to
one entry per address, later submissions ignored (§4.5). -/
def MiningPipelineInfo.add_to_winning_pow (pl : MiningPipelineInfo)
    (addr : Nat) (info : WinningPoWInfo) : MiningPipelineInfo :=
  if mcontains pl.winning_pow addr then pl
  else { pl with winning_pow := minsert pl.winning_pow addr info }

/-- Source `AccumulatingBlockStoredInfo` from `compute_raft.rs`. -/
inductive AccumulatingBlockStoredInfo where
  | FirstBlock (utxo_set : List (String × Transaction))
  | Block (info : BlockStoredInfo)
deriving DecidableEq, Repr

/-- Source `SpecialHandling` from `compute_raft.rs`. -/
inductive SpecialHandling where
  | Shutdown
  | FirstUpgradeBlock
deriving DecidableEq, Repr

/-- Source `ComputeRaftItem` from `compute_raft.rs` (socket addresses as `Nat`). -/
inductive ComputeRaftItem where
  | FirstBlock (utxo_set : List (String × Transaction))
  | Block (info : BlockStoredInfo)
  | Transactions (txs : List (String × Transaction))
  | DruidTransactions (txs : List (List (String × Transaction)))
  | MiningParticipant (addr : Nat)
  | WinningPoW (addr : Nat) (info : WinningPoWInfo)
  | ParticipantIntakeClosed
deriving DecidableEq, Repr

/-- Source `CommittedItem` from `compute_raft.rs`. -/
inductive CommittedItem where
  | Transactions
  | FirstBlock
  | Block
  | Snapshot
  | ParticipantIntakeClosed
  | WinningPoWIntakeClosed
deriving DecidableEq, Repr

/-- Source `ComputeConsensused` from `compute_raft.rs` (every serialized field). -/
structure ComputeConsensused where
  unanimous_majority : Nat
  sufficient_majority : Nat
  tx_pool : List (String × Transaction)
  tx_druid_pool : List (List (String × Transaction))
  tx_current_block_previous_hash : Option String
  tx_current_block_num : Option Nat
  current_block : Option Block
  current_block_tx : List (String × Transaction)
  initial_utxo_txs : Option (List (String × Transaction))
  utxo_set : TrackedUtxoSet
  current_block_stored_info : List (AccumulatingBlockStoredInfo × List Nat)
  last_committed_raft_idx_and_term : Nat × Nat
  current_circulation : Nat
  first_block_pipeline : MiningPipelineInfo
  second_block_pipeline : MiningPipelineInfo
  current_reward : Nat
  last_mining_transaction_hashes : List String
  special_handling : Option SpecialHandling
deriving DecidableEq, Repr

/-- Source `ComputeConsensused::default()`. -/
def ComputeConsensused.default0 : ComputeConsensused :=
  { unanimous_majority := 0
    sufficient_majority := 0
    tx_pool := []
    tx_druid_pool := []
    tx_current_block_previous_hash := none
    tx_current_block_num := none
    current_block := none
    current_block_tx := []
    initial_utxo_txs := none
    utxo_set := ⟨[], []⟩
    current_block_stored_info := []
    last_committed_raft_idx_and_term := (0, 0)
    current_circulation := 0
    first_block_pipeline := default
    second_block_pipeline := default
    current_reward := 0
    last_mining_transaction_hashes := []
    special_handling := none }

/-- Source `ComputeConsensused::with_peers_len`. -/
def ComputeConsensused.with_peers_len (s : ComputeConsensused)
    (peers_len : Nat) : ComputeConsensused :=
  { s with
    unanimous_majority := peers_len
    sufficient_majority := peers_len / 2 + 1 }

/-- Source `ComputeConsensused::is_first_block`. -/
def ComputeConsensused.is_first_block (s : ComputeConsensused) : Bool :=
  s.tx_current_block_num.isNone

/-- Source `ComputeConsensused::is_current_block`. -/
def ComputeConsensused.is_current_block (s : ComputeConsensused)
    (block_num : Nat) : Bool :=
  match s.tx_current_block_num with
  | some n => block_num == n
  | none => false

/-- Record a vote: find the accumulating info's group (keyed by its digest in
the source, by the value itself here) and add the proposer id to its vote
set. -/
def acc_insert (l : List (AccumulatingBlockStoredInfo × List Nat))
    (block : AccumulatingBlockStoredInfo) (proposer_id : Nat) :
    List (AccumulatingBlockStoredInfo × List Nat) :=
  match l with
  | [] => [(block, [proposer_id])]
  | (b, ids) :: rest =>
    if b = block then (b, (sinsert ids proposer_id).1) :: rest
    else (b, ids) :: acc_insert rest block proposer_id

/-- Source `ComputeConsensused::append_current_block_stored_info`. -/
def ComputeConsensused.append_current_block_stored_info
    (s : ComputeConsensused) (proposer_id : Nat)
    (block : AccumulatingBlockStoredInfo) : ComputeConsensused :=
  { s with
    current_block_stored_info :=
      acc_insert s.current_block_stored_info block proposer_id }

/-- Source `ComputeConsensused::append_first_block_info`. -/
def ComputeConsensused.append_first_block_info (s : ComputeConsensused)
    (proposer_id : Nat) (utxo_set : List (String × Transaction)) :
    ComputeConsensused :=
  s.append_current_block_stored_info proposer_id (.FirstBlock utxo_set)

/-- Source `ComputeConsensused::append_block_stored_info`. -/
def ComputeConsensused.append_block_stored_info (s : ComputeConsensused)
    (proposer_id : Nat) (block : BlockStoredInfo) : ComputeConsensused :=
  s.append_current_block_stored_info proposer_id (.Block block)

/-- Source `ComputeConsensused::max_agreeing_block_stored_info`. -/
def ComputeConsensused.max_agreeing_block_stored_info
    (s : ComputeConsensused) : Nat :=
  (s.current_block_stored_info.map fun e => e.2.length).foldl max 0

/-- Source `ComputeConsensused::has_block_stored_info_ready`: unanimity for the
first block, sufficient majority afterwards. -/
def ComputeConsensused.has_block_stored_info_ready
    (s : ComputeConsensused) : Bool :=
  let threshold :=
    if s.is_first_block then s.unanimous_majority else s.sufficient_majority
  threshold ≤ s.max_agreeing_block_stored_info

/-- Rust `Iterator::max_by_key` on the vote groups (key: vote count), the
later of equally supported groups winning. -/
def max_by_votes :
    List (AccumulatingBlockStoredInfo × List Nat) →
    Option (AccumulatingBlockStoredInfo × List Nat)
  | [] => none
  | e :: rest =>
    match max_by_votes rest with
    | none => some e
    | some m => if e.2.length ≤ m.2.length then some m else some e

/-- Source `ComputeConsensused::take_ready_block_stored_info`: take the info with
the most votes and reset the accumulator. The source unwraps; the embedding
returns `none` exactly when the accumulator is empty. -/
def ComputeConsensused.take_ready_block_stored_info (s : ComputeConsensused) :
    ComputeConsensused × Option AccumulatingBlockStoredInfo :=
  ({ s with current_block_stored_info := [] },
   (max_by_votes s.current_block_stored_info).map (·.1))

/-- Modelled from the spec: `get_total_coinbase_tokens` from `utils.rs` —
the token sum over the given transactions' outputs (§4.6:
`current_circulation = Σ coinbase tokens`). -/
def get_total_coinbase_tokens (txs : List (String × Transaction)) : Nat :=
  (txs.map fun p => (p.2.outputs.map fun o => o.amount).sum).sum

/-- Source `ComputeConsensused::apply_ready_block_stored_info`, with
`calculate_reward` passed as `crw`. Returns the new state and the resulting
block number (`none` exactly where the source would panic: an empty
accumulator). -/
def ComputeConsensused.apply_ready_block_stored_info (crw : Nat → Nat)
    (s : ComputeConsensused) : ComputeConsensused × Option Nat :=
  let s0 := { s with current_block := none, current_block_tx := [] }
  let tk := s0.take_ready_block_stored_info
  match tk.2 with
  | none => (tk.1, none)
  | some (.FirstBlock utxo_set) =>
    let s1 := { tk.1 with
      current_circulation := get_total_coinbase_tokens utxo_set
      tx_current_block_num := some 0
      initial_utxo_txs := some utxo_set }
    ({ s1 with
        current_reward := crw s1.current_circulation / s1.unanimous_majority },
     some 0)
  | some (.Block info) =>
    if s.special_handling = none ∧ info.shutdown then
      ({ tk.1 with special_handling := some .Shutdown },
       some (info.block_num + 1))
    else
      let s1 := { tk.1 with
        special_handling := none
        current_circulation :=
          tk.1.current_circulation +
            get_total_coinbase_tokens info.mining_transactions
        tx_current_block_previous_hash := some info.block_hash
        tx_current_block_num := some (info.block_num + 1)
        utxo_set :=
          tk.1.utxo_set.extend_tracked_utxo_set info.mining_transactions
        last_mining_transaction_hashes :=
          info.mining_transactions.map Prod.fst }
      ({ s1 with
          current_reward := crw s1.current_circulation / s1.unanimous_majority },
       some (info.block_num + 1))

/-- The consensused-state effect of `ComputeRaft::received_commit_proposal`:
the dispatch on the committed item. The in-flight ledger bookkeeping
(`proposed_in_flight`, `ignore_dedeup_b_num_less_than`) lives outside
`ComputeConsensused` and is modelled at the `ComputeRaftState` level; here
every delivered item is applied directly. -/
def ComputeConsensused.received_commit_proposal (crw : Nat → Nat)
    (s : ComputeConsensused) (proposer_id : Nat) (item : ComputeRaftItem) :
    ComputeConsensused × Option CommittedItem :=
  match item with
  | .FirstBlock utxo_set =>
    if s.is_first_block then
      let s1 := s.append_first_block_info proposer_id utxo_set
      if s1.has_block_stored_info_ready then
        ((s1.apply_ready_block_stored_info crw).1, some .FirstBlock)
      else (s1, none)
    else (s, none)
  | .Transactions txs =>
    ({ s with tx_pool := mappend s.tx_pool txs }, some .Transactions)
  | .DruidTransactions txs =>
    ({ s with tx_druid_pool := s.tx_druid_pool ++ txs }, some .Transactions)
  | .MiningParticipant addr =>
    ({ s with
        first_block_pipeline := s.first_block_pipeline.add_to_participants addr },
     none)
  | .WinningPoW addr info =>
    ({ s with
        first_block_pipeline :=
          s.first_block_pipeline.add_to_winning_pow addr info },
     none)
  | .ParticipantIntakeClosed => (s, some .ParticipantIntakeClosed)
  | .Block info =>
    if s.is_current_block info.block_num then
      let s1 := s.append_block_stored_info proposer_id info
      if s1.has_block_stored_info_ready then
        ((s1.apply_ready_block_stored_info crw).1, some .Block)
      else (s1, none)
    else (s, none)

/-- Source `ComputeRaft::received_commit` on a proposed item: record the commit's
index and term, then dispatch. -/
def ComputeConsensused.received_commit (crw : Nat → Nat) (idx term : Nat)
    (s : ComputeConsensused) (proposer_id : Nat) (item : ComputeRaftItem) :
    ComputeConsensused × Option CommittedItem :=
  ComputeConsensused.received_commit_proposal crw
    { s with last_committed_raft_idx_and_term := (idx, term) } proposer_id item

/-! ## Snapshot serialization (`tracked_utxo.rs` `Serialize`/`Deserialize`,
`compute_raft.rs` `event_processed_generate_snapshot` / `apply_snapshot`)

`serde` serializes `ComputeConsensused` field by field; `TrackedUtxoSet`
serializes its forward map only, and deserialization recomputes `pk_cache`
with `create_pk_cache_from_base`. The serialized form is embedded as the
record with the `pk_cache` projected away.
-/

/-- The serialized form of `ComputeConsensused`: every field, with the
tracked UTXO set represented by its forward map only. -/
structure SerializedComputeConsensused where
  unanimous_majority : Nat
  sufficient_majority : Nat
  tx_pool : List (String × Transaction)
  tx_druid_pool : List (List (String × Transaction))
  tx_current_block_previous_hash : Option String
  tx_current_block_num : Option Nat
  current_block : Option Block
  current_block_tx : List (String × Transaction)
  initial_utxo_txs : Option (List (String × Transaction))
  utxo_set : UtxoSet
  current_block_stored_info : List (AccumulatingBlockStoredInfo × List Nat)
  last_committed_raft_idx_and_term : Nat × Nat
  current_circulation : Nat
  first_block_pipeline : MiningPipelineInfo
  second_block_pipeline : MiningPipelineInfo
  current_reward : Nat
  last_mining_transaction_hashes : List String
  special_handling : Option SpecialHandling
deriving DecidableEq, Repr

/-- Serialization of the consensused state (`serialize(&self.consensused)`
in `event_processed_generate_snapshot`): the tracked UTXO set contributes
its forward map only. -/
def ComputeConsensused.serializeSnapshot (s : ComputeConsensused) :
    SerializedComputeConsensused :=
  { unanimous_majority := s.unanimous_majority
    sufficient_majority := s.sufficient_majority
    tx_pool := s.tx_pool
    tx_druid_pool := s.tx_druid_pool
    tx_current_block_previous_hash := s.tx_current_block_previous_hash
    tx_current_block_num := s.tx_current_block_num
    current_block := s.current_block
    current_block_tx := s.current_block_tx
    initial_utxo_txs := s.initial_utxo_txs
    utxo_set := s.utxo_set.base
    current_block_stored_info := s.current_block_stored_info
    last_committed_raft_idx_and_term := s.last_committed_raft_idx_and_term
    current_circulation := s.current_circulation
    first_block_pipeline := s.first_block_pipeline
    second_block_pipeline := s.second_block_pipeline
    current_reward := s.current_reward
    last_mining_transaction_hashes := s.last_mining_transaction_hashes
    special_handling := s.special_handling }

/-- Deserialization of the consensused state: rebuild the tracked UTXO set
from the serialized forward map (`TrackedUtxoSet`'s `Deserialize` impl
recomputes `pk_cache` with `create_pk_cache_from_base`). -/
def deserializeSnapshot (d : SerializedComputeConsensused) :
    ComputeConsensused :=
  { unanimous_majority := d.unanimous_majority
    sufficient_majority := d.sufficient_majority
    tx_pool := d.tx_pool
    tx_druid_pool := d.tx_druid_pool
    tx_current_block_previous_hash := d.tx_current_block_previous_hash
    tx_current_block_num := d.tx_current_block_num
    current_block := d.current_block
    current_block_tx := d.current_block_tx
    initial_utxo_txs := d.initial_utxo_txs
    utxo_set := TrackedUtxoSet.new d.utxo_set
    current_block_stored_info := d.current_block_stored_info
    last_committed_raft_idx_and_term := d.last_committed_raft_idx_and_term
    current_circulation := d.current_circulation
    first_block_pipeline := d.first_block_pipeline
    second_block_pipeline := d.second_block_pipeline
    current_reward := d.current_reward
    last_mining_transaction_hashes := d.last_mining_transaction_hashes
    special_handling := d.special_handling }

/-- Source `ComputeRaft::apply_snapshot` on a non-empty snapshot: replace the
consensused state by the deserialized one (the empty-snapshot branch leaves
the state untouched and is not modelled). -/
def apply_snapshot (_s : ComputeConsensused)
    (consensused_ser : SerializedComputeConsensused) :
    ComputeConsensused × Option CommittedItem :=
  (deserializeSnapshot consensused_ser, some .Snapshot)

/-! ## Block generation (`compute_raft.rs`)

`Block::set_merkle_root` (naom, async hashing) is abstracted as a parameter
`smr : Block → String`; `MiningPipelineInfo::construct_unicorn`
(`block_pipeline.rs`, not in the tree) as a parameter
`cu : MiningPipelineInfo → List String → MiningPipelineInfo`;
`BLOCK_SIZE_IN_TX` (`constants.rs`, not in the tree) as a parameter.
-/

/-- Modelled from the spec: naom `get_inputs_previous_out_point` — the
previous outpoints referenced by the transactions' inputs. -/
def get_inputs_previous_out_point (txs : List Transaction) : List OutPoint :=
  txs.flatMap fun tx => tx.inputs.filterMap fun i => i.previous_out

/-- The inner loop of `find_invalid_new_txs` for one transaction: check each
referenced outpoint against the UTXO set and the already-claimed set,
rolling back this transaction's own claims on failure. -/
def check_tx_inputs (base : UtxoSet) :
    List OutPoint → List OutPoint → Option (List OutPoint)
  | acc, [] => some acc
  | acc, v :: rest =>
    if mcontains base v ∧ v ∉ acc then check_tx_inputs base (acc ++ [v]) rest
    else none

/-- Source `ComputeConsensused::find_invalid_new_txs` from `compute_raft.rs`:
greedily claim each transaction's referenced outpoints; a transaction is
invalid when an outpoint is absent from the UTXO set or already claimed
(by itself or an earlier valid transaction of the batch). -/
def ComputeConsensused.find_invalid_new_txs (s : ComputeConsensused)
    (new_txs : List (String × Transaction)) : List String :=
  (new_txs.foldl
    (fun (st : List String × List OutPoint) p =>
      match check_tx_inputs s.utxo_set.base st.2
          (get_inputs_previous_out_point [p.2]) with
      | some acc => (st.1, acc)
      | none => (st.1 ++ [p.1], st.2))
    ([], [])).1

/-- Source `take_first_n` from `compute_raft.rs`: split off the first `n` bindings
(the source splits a `BTreeMap` at its `n`-th key). -/
def take_first_n {α β : Type} (n : Nat) (m : List (α × β)) :
    List (α × β) × List (α × β) :=
  (m.take n, m.drop n)

/-- Source `ComputeConsensused::update_current_block_tx_with_given_valid_txs`:
remove every outpoint consumed by the valid transactions from the tracked
UTXO set and append the transactions to the block. -/
def ComputeConsensused.update_current_block_tx_with_given_valid_txs
    (s : ComputeConsensused) (txs : List (String × Transaction))
    (block : Block) (block_tx : List (String × Transaction)) :
    ComputeConsensused × Block × List (String × Transaction) :=
  let s1 := { s with
    utxo_set :=
      (get_inputs_previous_out_point (txs.map Prod.snd)).foldl
        (fun t h => (t.remove_tracked_utxo_entry h).1) s.utxo_set }
  (s1,
   { block with transactions := block.transactions ++ txs.map Prod.fst },
   mappend block_tx txs)

/-- Source `ComputeConsensused::update_committed_dde_tx`: absorb each DRUID group,
dropping a group whenever any of its transactions is invalid. -/
def ComputeConsensused.update_committed_dde_tx (s : ComputeConsensused)
    (block : Block) (block_tx : List (String × Transaction)) :
    ComputeConsensused × Block × List (String × Transaction) :=
  let druid := s.tx_druid_pool
  let s0 := { s with tx_druid_pool := [] }
  druid.foldl
    (fun acc txs =>
      if (acc.1.find_invalid_new_txs txs).isEmpty then
        acc.1.update_current_block_tx_with_given_valid_txs txs acc.2.1 acc.2.2
      else acc)
    (s0, block, block_tx)

/-- Source `ComputeConsensused::update_current_block_tx`: purge invalid single
transactions from `tx_pool`, then move up to `block_size_in_tx` of the
remaining ones into the block. -/
def ComputeConsensused.update_current_block_tx (block_size_in_tx : Nat)
    (s : ComputeConsensused) (block : Block)
    (block_tx : List (String × Transaction)) :
    ComputeConsensused × Block × List (String × Transaction) :=
  let invalid := s.find_invalid_new_txs s.tx_pool
  let s1 := { s with tx_pool := s.tx_pool.filter fun p => p.1 ∉ invalid }
  let t := take_first_n block_size_in_tx s1.tx_pool
  let s2 := { s1 with tx_pool := t.2 }
  s2.update_current_block_tx_with_given_valid_txs t.1 block block_tx

/-- Source `ComputeConsensused::update_block_header` with the merkle-root
computation abstracted as `smr`: install the consensused previous hash
(taken out of the state) and block number, then set the merkle root. -/
def ComputeConsensused.update_block_header (smr : Block → String)
    (s : ComputeConsensused) (block : Block) : ComputeConsensused × Block :=
  let b1 := { block with header := { block.header with
    previous_hash := s.tx_current_block_previous_hash
    b_num := s.tx_current_block_num.getD 0 } }
  ({ s with tx_current_block_previous_hash := none },
   { b1 with header := { b1.header with merkle_root_hash := smr b1 } })

/-- Source `ComputeConsensused::set_committed_mining_block` with
`construct_unicorn` abstracted as `cu`: extend the tracked UTXO set with the
block's transactions, install the block, and hand the committed transaction
hashes to the pipeline. -/
def ComputeConsensused.set_committed_mining_block
    (cu : MiningPipelineInfo → List String → MiningPipelineInfo)
    (s : ComputeConsensused) (block : Block)
    (block_tx : List (String × Transaction)) : ComputeConsensused :=
  let tx_inputs := s.tx_pool.map Prod.fst
  { s with
    utxo_set := s.utxo_set.extend_tracked_utxo_set block_tx
    current_block := some block
    current_block_tx := block_tx
    first_block_pipeline := cu s.first_block_pipeline tx_inputs }

/-- Source `ComputeConsensused::generate_block`. -/
def ComputeConsensused.generate_block (block_size_in_tx : Nat)
    (cu : MiningPipelineInfo → List String → MiningPipelineInfo)
    (smr : Block → String) (s : ComputeConsensused) : ComputeConsensused :=
  let block0 : Block := { header := ⟨0, none, ""⟩, transactions := [] }
  let r1 := s.update_committed_dde_tx block0 []
  let r2 := r1.1.update_current_block_tx block_size_in_tx r1.2.1 r1.2.2
  let r3 := r2.1.update_block_header smr r2.2.1
  r3.1.set_committed_mining_block cu r3.2 r2.2.2

/-- Source `ComputeConsensused::generate_first_block`: the initial UTXO
transactions become the first block (taken out of the state). -/
def ComputeConsensused.generate_first_block
    (cu : MiningPipelineInfo → List String → MiningPipelineInfo)
    (s : ComputeConsensused) : ComputeConsensused :=
  let next_block_tx := s.initial_utxo_txs.getD []
  let next_block : Block :=
    { header := ⟨0, none, ""⟩, transactions := next_block_tx.map Prod.fst }
  { s with initial_utxo_txs := none
  }.set_committed_mining_block cu next_block next_block_tx

/-! ## Compute raft wrapper state (`compute_raft.rs` `ComputeRaft`)

The fields of `ComputeRaft` consulted by the embedded handlers: the local
pools, the in-flight proposed-transactions count and its bounds.
`TX_POOL_LIMIT` and `BLOCK_SIZE_IN_TX` (`constants.rs`, not in the tree) are
parameters.
-/

/-- The transaction-pool fields of `ComputeRaft`. -/
structure ComputeRaftState where
  consensused : ComputeConsensused
  local_tx_pool : List (String × Transaction)
  local_tx_druid_pool : List (List (String × Transaction))
  proposed_tx_pool_len : Nat
  proposed_tx_pool_len_max : Nat
  proposed_and_consensused_tx_pool_len_max : Nat
deriving DecidableEq, Repr

/-- Source `ComputeRaft::proposed_and_consensused_tx_pool_len`. -/
def ComputeRaftState.proposed_and_consensused_tx_pool_len
    (nr : ComputeRaftState) : Nat :=
  nr.proposed_tx_pool_len + nr.consensused.tx_pool.length

/-- Source `ComputeRaft::combined_tx_pool_len`: local pool plus proposed in flight
plus consensused pool. -/
def ComputeRaftState.combined_tx_pool_len (nr : ComputeRaftState) : Nat :=
  nr.local_tx_pool.length + nr.proposed_and_consensused_tx_pool_len

/-- Source `ComputeRaft::tx_pool_can_accept` with `TX_POOL_LIMIT` as a parameter. -/
def ComputeRaftState.tx_pool_can_accept (tx_pool_limit : Nat)
    (nr : ComputeRaftState) (extra_len : Nat) : Bool :=
  nr.combined_tx_pool_len + extra_len ≤ tx_pool_limit

/-- Source `ComputeRaft::append_to_tx_pool`. -/
def ComputeRaftState.append_to_tx_pool (nr : ComputeRaftState)
    (transactions : List (String × Transaction)) : ComputeRaftState :=
  { nr with local_tx_pool := mappend nr.local_tx_pool transactions }

/-- Source `ComputeRaft::propose_local_transactions_at_timeout`: move at most
`min(max_add, proposed_tx_pool_len_max)` local transactions into flight.
Returns the proposed batch. -/
def ComputeRaftState.propose_local_transactions_at_timeout
    (nr : ComputeRaftState) : ComputeRaftState × List (String × Transaction) :=
  let max_add := nr.proposed_and_consensused_tx_pool_len_max -
    nr.proposed_and_consensused_tx_pool_len
  let max_propose_len := min max_add nr.proposed_tx_pool_len_max
  let t := take_first_n max_propose_len nr.local_tx_pool
  if t.1.isEmpty then (nr, [])
  else
    ({ nr with
        local_tx_pool := t.2
        proposed_tx_pool_len := nr.proposed_tx_pool_len + t.1.length },
     t.1)

/-- Source `ComputeRaft::received_commit_proposal` for a commit of this node's own
in-flight `Transactions` batch (`removed = true`): decrement the in-flight
count and append to the consensused pool. -/
def ComputeRaftState.received_commit_own_transactions (crw : Nat → Nat)
    (idx term proposer_id : Nat) (nr : ComputeRaftState)
    (txs : List (String × Transaction)) : ComputeRaftState :=
  { nr with
    proposed_tx_pool_len := nr.proposed_tx_pool_len - txs.length
    consensused :=
      (ComputeConsensused.received_commit crw idx term nr.consensused
        proposer_id (.Transactions txs)).1 }

/-- Source `ComputeRaft::received_commit_proposal` for a committed item that was
not removed from this node's in-flight ledger (`removed = false`, such as
another proposer's item): the in-flight transaction count is untouched,
while the item — a remote `Transactions` batch included — is still applied
to the consensused state with no capacity check. -/
def ComputeRaftState.received_commit_other (crw : Nat → Nat)
    (idx term proposer_id : Nat) (nr : ComputeRaftState)
    (item : ComputeRaftItem) : ComputeRaftState :=
  { nr with
    consensused :=
      (ComputeConsensused.received_commit crw idx term nr.consensused
        proposer_id item).1 }

/-! ## Compute node dispatcher (`compute.rs`)

`ComputeNode` is embedded with the fields its embedded handlers consult;
the databases, peer lists and network plumbing are omitted. SHA3-based
helpers from `utils.rs` / naom (not in the tree) are parameters:
`cth : Transaction → String` (`construct_tx_hash`),
`cmc : String → String → String` (`concat_merkle_coinbase`),
`vpb : String → String → List Nat → Bool` (`validate_pow_block`),
`fpa : Nat → String` (`format_parition_pow_address`),
`vpfa : ProofOfWork → Option (List Nat) → Bool` (`validate_pow_for_address`),
`gpek : List ProofOfWork → List Nat` (`get_partition_entry_key`).
-/

/-- Modelled from the spec: a proof-of-work entry `(address, nonce)` (§3,
`interfaces.rs` `ProofOfWork`). -/
structure ProofOfWork where
  address : String
  nonce : List Nat
deriving DecidableEq, Repr

/-- Source `MinedBlock` from `compute.rs`. -/
structure MinedBlock where
  nonce : List Nat
  block : Block
  block_tx : List (String × Transaction)
  mining_transaction : String × Transaction
  shutdown : Bool
deriving DecidableEq, Repr

/-- Source `Response` from `interfaces.rs`: a success flag and a static reason. -/
structure Response where
  success : Bool
  reason : String
deriving DecidableEq, Repr

/-- The fields of `ComputeNode` consulted by the embedded handlers
(`partition_list` is the admitted-entry vector paired with the
admitted-peer set). -/
structure ComputeNode where
  node_raft : ComputeRaftState
  current_mined_block : Option MinedBlock
  current_random_num : List Nat
  partition_key : Option (List Nat)
  partition_list : List ProofOfWork × List Nat
  partition_full_size : Nat
  sanction_list : List String
  coordiated_shudown : Nat
deriving DecidableEq, Repr

/-- The UTXO fetcher closure built in `ComputeNode::transactions_validator`:
resolve the outpoint, then drop sanctioned spends and unexpired locktimes. -/
def utxo_fetch (base : UtxoSet) (sanction_list : List String)
    (lock_expired : Nat) (v : OutPoint) : Option TxOut :=
  match mlookup base v with
  | none => none
  | some tx_out =>
    if sanction_list.contains v.t_hash then none
    else if tx_out.locktime ≤ lock_expired then some tx_out
    else none

/-- Modelled from the spec: naom `tx_is_valid` with a fetcher — every input
references an outpoint that the fetcher resolves (§4.6 validity; naom's
script checks are outside the embedded fragment). -/
def tx_is_valid (fetch : OutPoint → Option TxOut) (tx : Transaction) : Bool :=
  tx.inputs.all fun i =>
    match i.previous_out with
    | none => false
    | some v => (fetch v).isSome

/-- Source `ComputeNode::transactions_validator` from `compute.rs`: not coinbase,
and valid through the sanction- and locktime-filtering UTXO fetcher
(`lock_expired` is the committed block number, defaulted to `0`). -/
def ComputeNode.transactions_validator (node : ComputeNode)
    (tx : Transaction) : Bool :=
  let lock_expired := node.node_raft.consensused.tx_current_block_num.getD 0
  !tx.is_coinbase &&
    tx_is_valid
      (utxo_fetch node.node_raft.consensused.utxo_set.base node.sanction_list
        lock_expired)
      tx

/-- Source `ComputeNode::receive_transactions` from `compute.rs` (the durable
pending-transaction column write is outside the embedded fragment). -/
def ComputeNode.receive_transactions (tx_pool_limit : Nat)
    (cth : Transaction → String) (node : ComputeNode)
    (transactions : List Transaction) : Response × ComputeNode :=
  let transactions_len := transactions.length
  if !(node.node_raft.tx_pool_can_accept tx_pool_limit transactions_len) then
    (⟨false, "Transaction pool for this compute node is full"⟩, node)
  else
    let valid_tx :=
      mextend []
        ((transactions.filter node.transactions_validator).map fun tx =>
          (cth tx, tx))
    let valid_tx_len := valid_tx.length
    let node1 :=
      { node with node_raft := node.node_raft.append_to_tx_pool valid_tx }
    if valid_tx_len = 0 then
      (⟨false, "No valid transactions provided"⟩, node1)
    else if valid_tx_len < transactions_len then
      (⟨true, "Some transactions invalid. Adding valid transactions only"⟩,
       node1)
    else
      (⟨true, "Transactions added to tx pool"⟩, node1)

/-- Source `ComputeNode::receive_partition_entry` from `compute.rs`. -/
def ComputeNode.receive_partition_entry (fpa : Nat → String)
    (vpfa : ProofOfWork → Option (List Nat) → Bool)
    (gpek : List ProofOfWork → List Nat) (node : ComputeNode) (peer : Nat)
    (partition_entry : ProofOfWork) : Response × ComputeNode :=
  if node.partition_full_size ≤ node.partition_list.1.length then
    (⟨false, "Partition list is already full"⟩, node)
  else
    let valid_pow := fpa peer == partition_entry.address &&
      vpfa partition_entry (some node.current_random_num)
    if valid_pow then
      let si := sinsert node.partition_list.2 peer
      if si.2 then
        let node1 := { node with
          partition_list := (node.partition_list.1 ++ [partition_entry], si.1) }
        if node1.partition_list.1.length < node1.partition_full_size then
          (⟨true, "Partition PoW received successfully"⟩, node1)
        else
          (⟨true, "Partition list is full"⟩,
           { node1 with partition_key := some (gpek node1.partition_list.1) })
      else (⟨false, "PoW received is invalid"⟩, node)
    else (⟨false, "PoW received is invalid"⟩, node)

/-- Source `ComputeNode::mining_block_mined` from `compute.rs`: take the mining
block out of the consensused state and record the mined block (with the
shutdown flag from the coordinated-shutdown boundary). The source unwraps
the mining block; its only caller has established that it is present. -/
def ComputeNode.mining_block_mined (node : ComputeNode) (nonce : List Nat)
    (mining_transaction : String × Transaction) : ComputeNode :=
  match node.node_raft.consensused.current_block with
  | none => node
  | some block =>
    let block_tx := node.node_raft.consensused.current_block_tx
    let shutdown := node.coordiated_shudown ≤ block.header.b_num
    { node with
      node_raft := { node.node_raft with
        consensused := { node.node_raft.consensused with
          current_block := none
          current_block_tx := [] } }
      current_mined_block :=
        some ⟨nonce, block, block_tx, mining_transaction, shutdown⟩ }

/-- Source `ComputeNode::receive_pow` from `compute.rs`. The third component lists
the raft items the handler proposes: the source's `receive_pow` contains no
proposal call (in particular none of `ComputeRaft::propose_winning_pow`), so
it is `[]` on every path. The coinbase guard short-circuits: when
`is_coinbase` fails the source rejects without touching the outputs, but
when `is_coinbase` holds it indexes `coinbase.outputs[0]`, aborting the
program on an empty output list; the embedding returns `none` for exactly
that aborting path. -/
def ComputeNode.receive_pow (cth : Transaction → String)
    (cmc : String → String → String)
    (vpb : String → String → List Nat → Bool) (node : ComputeNode)
    (address : Nat) (block_num : Nat) (nonce : List Nat)
    (coinbase : Transaction) :
    Option (Response × ComputeNode × List ComputeRaftItem) :=
  let pow_mining_block :=
    match node.node_raft.consensused.current_block with
    | some b =>
      if block_num == b.header.b_num ∧ address ∈ node.partition_list.2 then
        some b
      else none
    | none => none
  match pow_mining_block with
  | none => some (⟨false, "Not block currently mined"⟩, node, [])
  | some mining_block =>
    let coinbase_amount := node.node_raft.consensused.current_reward
    if !coinbase.is_coinbase then
      some (⟨false, "Coinbase transaction invalid"⟩, node, [])
    else
      match coinbase.outputs with
      | [] => none
      | o :: _ =>
        if !(o.amount == coinbase_amount) then
          some (⟨false, "Coinbase transaction invalid"⟩, node, [])
        else
          let coinbase_hash := cth coinbase
          let merkle_for_pow :=
            cmc mining_block.header.merkle_root_hash coinbase_hash
          if !vpb (mining_block.header.previous_hash.getD "") merkle_for_pow
              nonce then
            some (⟨false, "Invalid PoW for block"⟩, node, [])
          else
            some (⟨true, "Received PoW successfully"⟩,
              node.mining_block_mined nonce (coinbase_hash, coinbase), [])

/-! ## Reachability predicates -/

/-- The tracked-UTXO invariant stated by `tracked_utxo.rs` (doc comment on
`TrackedUtxoSet`) and the spec: the reverse index is exactly the one derived
from the forward map. -/
def pk_invariant (t : TrackedUtxoSet) : Prop :=
  t.pk_cache = create_pk_cache_from_base t.base

/-- A block-transaction map extends a UTXO set freshly when the outpoints it
introduces are distinct and absent from the forward map. -/
def outpoints_fresh (base : UtxoSet) (block_tx : List (String × Transaction)) :
    Prop :=
  (∀ p ∈ get_tx_out_with_out_point block_tx, mlookup base p.1 = none) ∧
  ((get_tx_out_with_out_point block_tx).map Prod.fst).Nodup

/-- Every accumulated `Block` vote's mining transactions extend the current
forward map freshly. -/
def acc_block_fresh (s : ComputeConsensused) : Prop :=
  ∀ e ∈ s.current_block_stored_info, ∀ info,
    e.1 = AccumulatingBlockStoredInfo.Block info →
    outpoints_fresh s.utxo_set.base info.mining_transactions

/-- Freshness side condition on a committed item: a `Block` vote's mining
transactions must extend the current forward map freshly. -/
def fresh_commit_item (s : ComputeConsensused) (item : ComputeRaftItem) :
    Prop :=
  match item with
  | .Block info => outpoints_fresh s.utxo_set.base info.mining_transactions
  | _ => True

/-- Consensused states reachable from startup
(`ComputeConsensused::default().with_peers_len(..)`) by `received_commit`
calls whose `Block` votes carry fresh mining-transaction outpoints. The
in-flight ledger only filters which proposals are delivered, so quantifying
over arbitrary delivered items covers every real run. -/
inductive ReachableFresh (crw : Nat → Nat) : ComputeConsensused → Prop where
  | init (peers_len : Nat) :
      ReachableFresh crw (ComputeConsensused.default0.with_peers_len peers_len)
  | step (s : ComputeConsensused) (idx term proposer_id : Nat)
      (item : ComputeRaftItem) (hs : ReachableFresh crw s)
      (hfresh : fresh_commit_item s item) :
      ReachableFresh crw
        (ComputeConsensused.received_commit crw idx term s proposer_id item).1

/-- Compute-node states reachable, from a state with empty transaction
pools (`ComputeRaft::new`), by the embedded operations that touch the three
transaction pools. Commits of `Transactions` batches are this node's own
in-flight proposals (`removed = true`), as in every commit of a no-raft
node; the committed batch is no longer than the in-flight count it is
subtracted from. -/
inductive TxPoolReachable (tx_pool_limit : Nat) : ComputeNode → Prop where
  | init (node : ComputeNode) (h1 : node.node_raft.local_tx_pool = [])
      (h2 : node.node_raft.proposed_tx_pool_len = 0)
      (h3 : node.node_raft.consensused.tx_pool = []) :
      TxPoolReachable tx_pool_limit node
  | receive (node : ComputeNode) (cth : Transaction → String)
      (txs : List Transaction) (h : TxPoolReachable tx_pool_limit node) :
      TxPoolReachable tx_pool_limit
        (node.receive_transactions tx_pool_limit cth txs).2
  | propose (node : ComputeNode) (h : TxPoolReachable tx_pool_limit node) :
      TxPoolReachable tx_pool_limit
        { node with
          node_raft := node.node_raft.propose_local_transactions_at_timeout.1 }
  | commit_own (node : ComputeNode) (crw : Nat → Nat)
      (idx term proposer_id : Nat) (txs : List (String × Transaction))
      (h : TxPoolReachable tx_pool_limit node)
      (hlen : txs.length ≤ node.node_raft.proposed_tx_pool_len) :
      TxPoolReachable tx_pool_limit
        { node with
          node_raft := node.node_raft.received_commit_own_transactions crw idx
            term proposer_id txs }
  | commit_other (node : ComputeNode) (crw : Nat → Nat)
      (idx term proposer_id : Nat) (item : ComputeRaftItem)
      (h : TxPoolReachable tx_pool_limit node)
      (hni : ∀ txs, item ≠ ComputeRaftItem.Transactions txs) :
      TxPoolReachable tx_pool_limit
        { node with
          node_raft := node.node_raft.received_commit_other crw idx term
            proposer_id item }
  | generate (node : ComputeNode) (block_size_in_tx : Nat)
      (cu : MiningPipelineInfo → List String → MiningPipelineInfo)
      (smr : Block → String) (h : TxPoolReachable tx_pool_limit node) :
      TxPoolReachable tx_pool_limit
        { node with
          node_raft := { node.node_raft with
            consensused := node.node_raft.consensused.generate_block
              block_size_in_tx cu smr } }
  | generate_first (node : ComputeNode)
      (cu : MiningPipelineInfo → List String → MiningPipelineInfo)
      (h : TxPoolReachable tx_pool_limit node) :
      TxPoolReachable tx_pool_limit
        { node with
          node_raft := { node.node_raft with
            consensused := node.node_raft.consensused.generate_first_block cu } }

/-- The `SendPoW` acceptance condition as the spec words it: the block
number matches the block being mined, the peer is in the mining cohort, the
coinbase is well formed with the current reward, and the proof of work
validates (§4.5, §4.7). Stated separately from `receive_pow` so the
handler can be compared against it. -/
def pow_submission_accepted (cth : Transaction → String)
    (cmc : String → String → String)
    (vpb : String → String → List Nat → Bool) (node : ComputeNode)
    (address : Nat) (block_num : Nat) (nonce : List Nat)
    (coinbase : Transaction) : Bool :=
  match node.node_raft.consensused.current_block with
  | none => false
  | some b =>
    (block_num == b.header.b_num) &&
    decide (address ∈ node.partition_list.2) &&
    coinbase.is_coinbase &&
    (match coinbase.outputs with
     | [] => false
     | o :: _ => o.amount == node.node_raft.consensused.current_reward) &&
    vpb (b.header.previous_hash.getD "")
      (cmc b.header.merkle_root_hash (cth coinbase)) nonce

/-! ## Concrete instances used by closed theorems -/

/-- Two outpoints sharing the script public key `"a"`. -/
def c1_base : UtxoSet :=
  [(⟨"h1", 0⟩, ⟨1, some "a", 0⟩), (⟨"h2", 0⟩, ⟨1, some "a", 0⟩)]

/-- Removing `("h1", 0)` from the tracked set over `c1_base`. -/
def c1_removed : TrackedUtxoSet × Option (List OutPoint) :=
  (TrackedUtxoSet.new c1_base).remove_tracked_utxo_entry ⟨"h1", 0⟩

/-- A unicorn with the smallest valid modulus parameters: `p = 7` is prime
and at least `2^(2·1)`, one iteration, seed `1`. -/
def c5_unicorn : Unicorn :=
  { iterations := 1, security_level := 1, seed := 1, modulus := 7, witness := 0 }

/-- A coinbase-style transaction paying to script public key `"a"`. -/
def c2_txA : Transaction := ⟨[], [⟨5, some "a", 0⟩]⟩

/-- A transaction with the same hash key as `c2_txA` but paying to `"b"`. -/
def c2_txB : Transaction := ⟨[], [⟨5, some "b", 0⟩]⟩

/-- Stored info for block 0, whose mining transaction is keyed `"h"`. -/
def c2_info1 : BlockStoredInfo := ⟨"b1", 0, [], "m1", [("h", c2_txA)], false⟩

/-- Stored info for block 1, whose mining transaction reuses the key `"h"`. -/
def c2_info2 : BlockStoredInfo := ⟨"b2", 1, [], "m2", [("h", c2_txB)], false⟩

/-- The consensused state of a single-peer group after committing the first
block and two `Block` votes whose mining transactions share the transaction
hash `"h"`: the second extension overwrites the forward-map binding while
the reverse index keeps both entries. -/
def c2_final : ComputeConsensused :=
  ([ComputeRaftItem.FirstBlock [], .Block c2_info1, .Block c2_info2]).foldl
    (fun s item =>
      (ComputeConsensused.received_commit (fun _ => 0) 0 0 s 0 item).1)
    (ComputeConsensused.default0.with_peers_len 1)

/-- A consensused state whose UTXO set holds the outpoint `("hs", 0)`. -/
def c6_state : ComputeConsensused :=
  { ComputeConsensused.default0.with_peers_len 1 with
    utxo_set := TrackedUtxoSet.new [(⟨"hs", 0⟩, ⟨1, some "z", 0⟩)] }

/-- A compute node over `c6_state` whose sanction list bans `"hs"`. -/
def c6_node : ComputeNode :=
  { node_raft :=
      { consensused := c6_state
        local_tx_pool := []
        local_tx_druid_pool := []
        proposed_tx_pool_len := 0
        proposed_tx_pool_len_max := 0
        proposed_and_consensused_tx_pool_len_max := 0 }
    current_mined_block := none
    current_random_num := []
    partition_key := none
    partition_list := ([], [])
    partition_full_size := 0
    sanction_list := ["hs"]
    coordiated_shudown := 0 }

/-- A transaction spending the sanctioned outpoint `("hs", 0)`. -/
def c6_tx : Transaction := ⟨[⟨some ⟨"hs", 0⟩⟩], []⟩

/-- A mining block with number `0` and merkle root `"mr"`. -/
def c4_block : Block := ⟨⟨0, none, "mr"⟩, []⟩

/-- A compute node mining `c4_block` with reward `5` and peer `7` in the
mining cohort. -/
def c4_node : ComputeNode :=
  { node_raft :=
      { consensused :=
          { ComputeConsensused.default0.with_peers_len 1 with
            current_block := some c4_block
            current_reward := 5 }
        local_tx_pool := []
        local_tx_druid_pool := []
        proposed_tx_pool_len := 0
        proposed_tx_pool_len_max := 0
        proposed_and_consensused_tx_pool_len_max := 0 }
    current_mined_block := none
    current_random_num := []
    partition_key := none
    partition_list := ([], [7])
    partition_full_size := 2
    sanction_list := []
    coordiated_shudown := 1000 }

/-- A well-formed coinbase paying the reward `5`. -/
def c4_coinbase : Transaction := ⟨[⟨none⟩], [⟨5, some "x", 0⟩]⟩

/-- Stored info with the shutdown flag set. -/
def c9_info : BlockStoredInfo := ⟨"bh", 0, [], "mh", [], true⟩

/-- A single-peer consensused state holding one quorum-reaching vote for the
shutdown block `c9_info`. -/
def c9_state : ComputeConsensused :=
  { ComputeConsensused.default0.with_peers_len 1 with
    tx_current_block_num := some 0
    current_block_stored_info := [(.Block c9_info, [0])] }

/-- A transaction spending the outpoint `("u", 0)`. -/
def c8_tx : Transaction := ⟨[⟨some ⟨"u", 0⟩⟩], [⟨1, some "w", 0⟩]⟩

/-- A two-peer compute node with empty transaction pools whose UTXO snapshot
holds the outpoint `("u", 0)`, so that `c8_tx` passes the intake
validator. -/
def c8_node0 : ComputeNode :=
  { node_raft :=
      { consensused :=
          { ComputeConsensused.default0.with_peers_len 2 with
            tx_current_block_num := some 0
            utxo_set := TrackedUtxoSet.new [(⟨"u", 0⟩, ⟨1, some "w", 0⟩)] }
        local_tx_pool := []
        local_tx_druid_pool := []
        proposed_tx_pool_len := 0
        proposed_tx_pool_len_max := 0
        proposed_and_consensused_tx_pool_len_max := 0 }
    current_mined_block := none
    current_random_num := []
    partition_key := none
    partition_list := ([], [])
    partition_full_size := 0
    sanction_list := []
    coordiated_shudown := 0 }

/-- The node `c8_node0` after an accepted intake of `c8_tx` under pool
limit `1`. -/
def c8_node1 : ComputeNode :=
  (c8_node0.receive_transactions 1 (fun _ => "t") [c8_tx]).2

/-- The raft state of `c8_node1` after committing another proposer's
one-transaction `Transactions` batch (`removed = false`). -/
def c8_state2 : ComputeRaftState :=
  c8_node1.node_raft.received_commit_other (fun _ => 0) 0 0 1
    (.Transactions [("r", c8_tx)])

/-! ## Theorems -/

/-- Claim C1: the spec and the struct's own invariant say that removing an
outpoint takes exactly that outpoint out of the reverse index, leaving other
outpoints of the same script public key indexed, so that the reverse index
always equals `create_pk_cache_from_base` of the forward map. The code
instead removes the whole reverse-index entry of the script public key: over
a base with two outpoints sharing key `"a"`, removing one empties the
reverse index entirely, while the derivation from the remaining forward map
still indexes the other outpoint. -/
theorem remove_tracked_utxo_entry_drops_whole_reverse_entry :
    c1_removed.1.pk_cache = [] ∧
    create_pk_cache_from_base c1_removed.1.base = [("a", [⟨"h2", 0⟩])] ∧
    c1_removed.2 = some [⟨"h1", 0⟩, ⟨"h2", 0⟩] := by
  decide

/-- Claim C5: with the valid modulus `p = 7` (prime, `≥ 2^(2k)` for
`k = 1`), seed `1` and one iteration, `eval` produces the witness `1`, yet
`verify` rejects it: the slow square root lacks the quadratic-residue branch
of the sloth construction, so verification of an honest witness fails
whenever the first permuted seed value is a quadratic residue. -/
theorem unicorn_verify_rejects_eval_witness :
    c5_unicorn.is_valid_modulus = true ∧
    c5_unicorn.eval = some ({ c5_unicorn with witness := 1 }, 1) ∧
    c5_unicorn.verify 1 1 = false := by
  decide

theorem mremove_snd_eq_mlookup {α β : Type} [DecidableEq α]
    (l : List (α × β)) (k : α) : (mremove l k).2 = mlookup l k := by
  induction l with
  | nil => rfl
  | cons p rest ih =>
    obtain ⟨a, b⟩ := p
    by_cases h : a = k
    · simp [mremove, mlookup, h]
    · simp [mremove, mlookup, h, ih]

theorem mremove_of_mlookup_none {α β : Type} [DecidableEq α]
    (l : List (α × β)) (k : α) (h : mlookup l k = none) :
    mremove l k = (l, none) := by
  induction l with
  | nil => rfl
  | cons p rest ih =>
    obtain ⟨a, b⟩ := p
    by_cases hak : a = k
    · simp [mlookup, hak] at h
    · simp only [mlookup, if_neg hak] at h
      simp [mremove, hak, ih h]

/-- Claim C10: removing an outpoint absent from the forward map returns
`None` and leaves both the forward map and the reverse index unchanged, and
removing an outpoint whose output carries no script public key removes the
forward-map entry, leaves the reverse index unchanged and returns `None`. -/
theorem remove_tracked_utxo_entry_total (t : TrackedUtxoSet) (key : OutPoint) :
    (mlookup t.base key = none →
      t.remove_tracked_utxo_entry key = (t, none)) ∧
    (∀ txout, mlookup t.base key = some txout →
      txout.script_public_key = none →
      t.remove_tracked_utxo_entry key =
        (⟨(mremove t.base key).1, t.pk_cache⟩, none)) := by
  constructor
  · intro h
    unfold TrackedUtxoSet.remove_tracked_utxo_entry
    rw [mremove_of_mlookup_none t.base key h]
  · intro txout hlk hspk
    have h2 : (mremove t.base key).2 = some txout := by
      rw [mremove_snd_eq_mlookup]; exact hlk
    simp only [TrackedUtxoSet.remove_tracked_utxo_entry, h2, hspk]

theorem remove_tracked_utxo_entry_total_witness :
    (TrackedUtxoSet.remove_tracked_utxo_entry ⟨[], []⟩ ⟨"h", 0⟩ =
      (⟨[], []⟩, none)) ∧
    (TrackedUtxoSet.remove_tracked_utxo_entry
        ⟨[(⟨"h", 0⟩, ⟨1, none, 0⟩)], []⟩ ⟨"h", 0⟩ = (⟨[], []⟩, none)) :=
  ⟨(remove_tracked_utxo_entry_total ⟨[], []⟩ ⟨"h", 0⟩).1 rfl,
   (remove_tracked_utxo_entry_total ⟨[(⟨"h", 0⟩, ⟨1, none, 0⟩)], []⟩
      ⟨"h", 0⟩).2 ⟨1, none, 0⟩ rfl rfl⟩

theorem le_foldl_max (l : List Nat) (a m : Nat) :
    m ≤ l.foldl max a ↔ m ≤ a ∨ ∃ x ∈ l, m ≤ x := by
  induction l generalizing a with
  | nil => simp
  | cons x xs ih =>
    simp only [List.foldl_cons, ih, le_max_iff, List.mem_cons]
    constructor
    · rintro ((h | h) | ⟨y, hy, hm⟩)
      · exact Or.inl h
      · exact Or.inr ⟨x, Or.inl rfl, h⟩
      · exact Or.inr ⟨y, Or.inr hy, hm⟩
    · rintro (h | ⟨y, (rfl | hy), hm⟩)
      · exact Or.inl (Or.inl h)
      · exact Or.inl (Or.inr hm)
      · exact Or.inr ⟨y, hy, hm⟩

theorem max_by_part_len_mem {l : List (Nat × CompleteBlock)}
    {e : Nat × CompleteBlock} (h : max_by_part_len l = some e) : e ∈ l := by
  induction l with
  | nil => simp [max_by_part_len] at h
  | cons x xs ih =>
    simp only [max_by_part_len] at h
    cases hm : max_by_part_len xs with
    | none =>
      rw [hm] at h
      simp only [Option.some.injEq] at h
      subst h
      exact List.mem_cons_self _ _
    | some m =>
      rw [hm] at h
      by_cases hle : x.2.per_node.length ≤ m.2.per_node.length
      · simp only [if_pos hle, Option.some.injEq] at h
        subst h
        exact List.mem_cons_of_mem _ (ih hm)
      · simp only [if_neg hle, Option.some.injEq] at h
        subst h
        exact List.mem_cons_self _ _

theorem max_by_part_len_eq_none {l : List (Nat × CompleteBlock)} :
    max_by_part_len l = none ↔ l = [] := by
  cases l with
  | nil => simp [max_by_part_len]
  | cons x xs =>
    constructor
    · intro h
      simp only [max_by_part_len] at h
      cases hm : max_by_part_len xs with
      | none => rw [hm] at h; simp at h
      | some m =>
        rw [hm] at h
        by_cases hle : x.2.per_node.length ≤ m.2.per_node.length
        · simp [if_pos hle] at h
        · simp [if_neg hle] at h
    · intro h; exact (List.cons_ne_nil x xs h).elim

theorem max_by_part_len_ge {l : List (Nat × CompleteBlock)} :
    ∀ {e : Nat × CompleteBlock}, max_by_part_len l = some e →
    ∀ e' ∈ l, e'.2.per_node.length ≤ e.2.per_node.length := by
  induction l with
  | nil => simp [max_by_part_len]
  | cons x xs ih =>
    intro e h e' he'
    simp only [max_by_part_len] at h
    cases hm : max_by_part_len xs with
    | none =>
      rw [hm] at h
      simp only [Option.some.injEq] at h
      subst h
      rcases List.mem_cons.mp he' with rfl | hmem
      · exact Nat.le_refl _
      · rw [max_by_part_len_eq_none.mp hm] at hmem
        simp at hmem
    | some m =>
      rw [hm] at h
      by_cases hle : x.2.per_node.length ≤ m.2.per_node.length
      · simp only [if_pos hle, Option.some.injEq] at h
        subst h
        rcases List.mem_cons.mp he' with rfl | hmem
        · exact hle
        · exact ih hm e' hmem
      · simp only [if_neg hle, Option.some.injEq] at h
        subst h
        rcases List.mem_cons.mp he' with rfl | hmem
        · exact Nat.le_refl _
        · have := ih hm e' hmem
          omega

theorem max_by_part_len_tie {l : List (Nat × CompleteBlock)}
    (hs : l.Pairwise (fun a b => a.1 < b.1)) :
    ∀ {e : Nat × CompleteBlock}, max_by_part_len l = some e →
    ∀ e' ∈ l, e'.2.per_node.length = e.2.per_node.length → e'.1 ≤ e.1 := by
  induction l with
  | nil => simp [max_by_part_len]
  | cons x xs ih =>
    intro e h e' he' hlen
    have hs' := List.pairwise_cons.mp hs
    simp only [max_by_part_len] at h
    cases hm : max_by_part_len xs with
    | none =>
      rw [hm] at h
      simp only [Option.some.injEq] at h
      subst h
      rcases List.mem_cons.mp he' with rfl | hmem
      · exact Nat.le_refl _
      · rw [max_by_part_len_eq_none.mp hm] at hmem
        simp at hmem
    | some m =>
      rw [hm] at h
      by_cases hle : x.2.per_node.length ≤ m.2.per_node.length
      · simp only [if_pos hle, Option.some.injEq] at h
        subst h
        rcases List.mem_cons.mp he' with rfl | hmem
        · exact Nat.le_of_lt (hs'.1 m (max_by_part_len_mem hm))
        · exact ih hs'.2 hm e' hmem hlen
      · simp only [if_neg hle, Option.some.injEq] at h
        subst h
        rcases List.mem_cons.mp he' with rfl | hmem
        · exact Nat.le_refl _
        · have := max_by_part_len_ge hm e' hmem
          omega

/-- Claim C3: `has_block_ready_to_store` holds exactly when at least
`sufficient_majority` distinct proposers voted the round complete and some
accumulated part group holds at least `sufficient_majority` per-node extras;
and then `generate_complete_block` returns the group with the most per-node
extras — ties resolved towards the larger group digest — advances
`current_block_idx` by one and empties the timeout-vote set and the
accumulator. -/
theorem storage_block_ready_and_generate (s : StorageConsensused)
    (hmaj : 1 ≤ s.sufficient_majority)
    (hsorted : s.current_block_completed_parts.Pairwise fun a b => a.1 < b.1) :
    (s.has_block_ready_to_store = true ↔
      (s.sufficient_majority ≤
          s.current_block_complete_timeout_peer_ids.length ∧
        ∃ e ∈ s.current_block_completed_parts,
          s.sufficient_majority ≤ e.2.per_node.length)) ∧
    (s.has_block_ready_to_store = true →
      ∃ k cb,
        max_by_part_len s.current_block_completed_parts = some (k, cb) ∧
        s.generate_complete_block =
          ({ s with
              current_block_idx := s.current_block_idx + 1
              current_block_complete_timeout_peer_ids := []
              current_block_completed_parts := [] },
            some cb) ∧
        (k, cb) ∈ s.current_block_completed_parts ∧
        (∀ e ∈ s.current_block_completed_parts,
          e.2.per_node.length ≤ cb.per_node.length) ∧
        (∀ e ∈ s.current_block_completed_parts,
          e.2.per_node.length = cb.per_node.length → e.1 ≤ k)) := by
  have hready : s.has_block_ready_to_store = true ↔
      (s.sufficient_majority ≤
          s.current_block_complete_timeout_peer_ids.length ∧
        ∃ e ∈ s.current_block_completed_parts,
          s.sufficient_majority ≤ e.2.per_node.length) := by
    unfold StorageConsensused.has_block_ready_to_store
    by_cases ht : s.current_block_complete_timeout_peer_ids.length <
        s.sufficient_majority
    · simp only [if_pos ht]
      constructor
      · intro h; cases h
      · rintro ⟨h, -⟩; omega
    · simp only [if_neg ht, le_foldl_max, List.mem_map, decide_eq_true_eq]
      constructor
      · rintro (h0 | ⟨x, ⟨e, he, rfl⟩, hx⟩)
        · omega
        · exact ⟨Nat.le_of_not_lt ht, e, he, hx⟩
      · rintro ⟨-, e, he, hx⟩
        exact Or.inr ⟨e.2.per_node.length, ⟨e, he, rfl⟩, hx⟩
  refine ⟨hready, fun h => ?_⟩
  obtain ⟨-, e, he, hlen⟩ := hready.mp h
  cases hmax : max_by_part_len s.current_block_completed_parts with
  | none =>
    rw [max_by_part_len_eq_none.mp hmax] at he
    simp at he
  | some m =>
    obtain ⟨k, cb⟩ := m
    refine ⟨k, cb, ?_, ?_, ?_, ?_, ?_⟩
    · rfl
    · unfold StorageConsensused.generate_complete_block
      rw [hmax]
      rfl
    · exact max_by_part_len_mem hmax
    · exact max_by_part_len_ge hmax
    · exact max_by_part_len_tie hsorted hmax

theorem storage_block_ready_and_generate_witness :
    StorageConsensused.has_block_ready_to_store
      ⟨1, 0, [3], [(5, ⟨⟨0, ⟨⟨0, none, ""⟩, []⟩, []⟩, [(0, ⟨[], ⟨[], []⟩⟩)]⟩)]⟩ =
      true :=
  (storage_block_ready_and_generate
      ⟨1, 0, [3], [(5, ⟨⟨0, ⟨⟨0, none, ""⟩, []⟩, []⟩, [(0, ⟨[], ⟨[], []⟩⟩)]⟩)]⟩
      (by decide) (by simp)).1.mpr
    ⟨by decide, ⟨(5, ⟨⟨0, ⟨⟨0, none, ""⟩, []⟩, []⟩, [(0, ⟨[], ⟨[], []⟩⟩)]⟩),
      by simp, by decide⟩⟩

theorem mlookup_append_none {α β : Type} [DecidableEq α]
    (l1 l2 : List (α × β)) (k : α) (h1 : mlookup l1 k = none)
    (h2 : mlookup l2 k = none) : mlookup (l1 ++ l2) k = none := by
  induction l1 with
  | nil => simpa using h2
  | cons p rest ih =>
    obtain ⟨a, b⟩ := p
    by_cases hak : a = k
    · simp [mlookup, hak] at h1
    · simp only [mlookup, if_neg hak] at h1
      simpa [mlookup, hak] using ih h1

theorem minsert_of_mlookup_none {α β : Type} [DecidableEq α]
    (l : List (α × β)) (k : α) (v : β) (h : mlookup l k = none) :
    minsert l k v = l ++ [(k, v)] := by
  induction l with
  | nil => rfl
  | cons p rest ih =>
    obtain ⟨a, b⟩ := p
    by_cases hak : a = k
    · simp [mlookup, hak] at h
    · simp only [mlookup, if_neg hak] at h
      simp [minsert, hak, ih h]

theorem mextend_fresh {α β : Type} [DecidableEq α] :
    ∀ (adds base : List (α × β)),
    (∀ p ∈ adds, mlookup base p.1 = none) →
    ((adds.map Prod.fst).Nodup) → mextend base adds = base ++ adds
  | [], base, _, _ => by simp [mextend]
  | a :: rest, base, hfresh, hnodup => by
    have ha : mlookup base a.1 = none := hfresh a (List.mem_cons_self _ _)
    have hnodup' : (a.1 :: rest.map Prod.fst).Nodup := hnodup
    have hnd := List.nodup_cons.mp hnodup'
    have hrest : ∀ p ∈ rest, mlookup (base ++ [a]) p.1 = none := by
      intro p hp
      apply mlookup_append_none
      · exact hfresh p (List.mem_cons_of_mem _ hp)
      · have hne : a.1 ≠ p.1 := by
          intro hcontra
          exact hnd.1 (hcontra ▸ List.mem_map_of_mem Prod.fst hp)
        simp [mlookup, hne]
    calc mextend base (a :: rest)
        = mextend (minsert base a.1 a.2) rest := by
          simp [mextend]
      _ = mextend (base ++ [a]) rest := by
          rw [minsert_of_mlookup_none base a.1 a.2 ha]
      _ = (base ++ [a]) ++ rest := mextend_fresh rest (base ++ [a]) hrest hnd.2
      _ = base ++ (a :: rest) := by simp

theorem extend_pk_cache_vec_append (c : PkCache)
    (l1 l2 : List (String × OutPoint)) :
    extend_pk_cache_vec c (l1 ++ l2) =
      extend_pk_cache_vec (extend_pk_cache_vec c l1) l2 := by
  simp [extend_pk_cache_vec]

theorem get_pk_from_utxo_set_append (b1 b2 : UtxoSet) :
    get_pk_with_out_point_from_utxo_set (b1 ++ b2) =
      get_pk_with_out_point_from_utxo_set b1 ++
        get_pk_with_out_point_from_utxo_set b2 := by
  simp [get_pk_with_out_point_from_utxo_set]

theorem create_pk_cache_append (b1 b2 : UtxoSet) :
    create_pk_cache_from_base (b1 ++ b2) =
      extend_pk_cache_vec (create_pk_cache_from_base b1)
        (get_pk_with_out_point_from_utxo_set b2) := by
  unfold create_pk_cache_from_base
  rw [get_pk_from_utxo_set_append, extend_pk_cache_vec_append]

theorem get_pk_coherent (block_tx : List (String × Transaction)) :
    get_pk_with_out_point block_tx =
      get_pk_with_out_point_from_utxo_set
        (get_tx_out_with_out_point block_tx) := by
  unfold get_pk_with_out_point get_pk_with_out_point_from_utxo_set
    get_tx_out_with_out_point
  induction block_tx with
  | nil => rfl
  | cons p rest ih =>
    simp only [List.flatMap_cons, List.filterMap_append, ih,
      List.filterMap_map]
    rfl

theorem pk_invariant_extend (t : TrackedUtxoSet)
    (block_tx : List (String × Transaction))
    (hf : outpoints_fresh t.base block_tx) (hinv : pk_invariant t) :
    pk_invariant (t.extend_tracked_utxo_set block_tx) := by
  unfold pk_invariant TrackedUtxoSet.extend_tracked_utxo_set
  simp only
  rw [mextend_fresh _ _ hf.1 hf.2, create_pk_cache_append, ← get_pk_coherent,
    hinv]

theorem max_by_votes_mem {l : List (AccumulatingBlockStoredInfo × List Nat)} :
    ∀ {e}, max_by_votes l = some e → e ∈ l := by
  induction l with
  | nil => simp [max_by_votes]
  | cons x xs ih =>
    intro e h
    simp only [max_by_votes] at h
    cases hm : max_by_votes xs with
    | none =>
      rw [hm] at h
      simp only [Option.some.injEq] at h
      subst h
      exact List.mem_cons_self _ _
    | some m =>
      rw [hm] at h
      by_cases hle : x.2.length ≤ m.2.length
      · simp only [if_pos hle, Option.some.injEq] at h
        subst h
        exact List.mem_cons_of_mem _ (ih hm)
      · simp only [if_neg hle, Option.some.injEq] at h
        subst h
        exact List.mem_cons_self _ _

theorem acc_insert_fst_mem
    (l : List (AccumulatingBlockStoredInfo × List Nat))
    (b : AccumulatingBlockStoredInfo) (p : Nat) :
    ∀ e ∈ acc_insert l b p, e.1 = b ∨ ∃ ids, (e.1, ids) ∈ l := by
  induction l with
  | nil =>
    intro e he
    simp only [acc_insert, List.mem_singleton] at he
    subst he
    exact Or.inl rfl
  | cons x xs ih =>
    intro e he
    obtain ⟨b', ids⟩ := x
    simp only [acc_insert] at he
    by_cases hb : b' = b
    · rw [if_pos hb] at he
      rcases List.mem_cons.mp he with rfl | hmem
      · exact Or.inl hb
      · exact Or.inr ⟨e.2, List.mem_cons_of_mem _ hmem⟩
    · rw [if_neg hb] at he
      rcases List.mem_cons.mp he with rfl | hmem
      · exact Or.inr ⟨ids, List.mem_cons_self _ _⟩
      · rcases ih e hmem with h | ⟨ids', hids⟩
        · exact Or.inl h
        · exact Or.inr ⟨ids', List.mem_cons_of_mem _ hids⟩

theorem acc_block_fresh_of_nil (s : ComputeConsensused)
    (h : s.current_block_stored_info = []) : acc_block_fresh s := by
  intro e he info _
  rw [h] at he
  simp at he

theorem append_stored_info_preserves (s : ComputeConsensused)
    (proposer_id : Nat) (b : AccumulatingBlockStoredInfo)
    (hinv : pk_invariant s.utxo_set) (hacc : acc_block_fresh s)
    (hb : ∀ info, b = AccumulatingBlockStoredInfo.Block info →
      outpoints_fresh s.utxo_set.base info.mining_transactions) :
    pk_invariant
        (s.append_current_block_stored_info proposer_id b).utxo_set ∧
      acc_block_fresh (s.append_current_block_stored_info proposer_id b) := by
  refine ⟨hinv, ?_⟩
  intro e he info hei
  rcases acc_insert_fst_mem s.current_block_stored_info b proposer_id e he
    with h | ⟨ids, hids⟩
  · exact hb info (h ▸ hei)
  · exact hacc (e.1, ids) hids info hei

theorem apply_ready_preserves (crw : Nat → Nat) (s : ComputeConsensused)
    (hinv : pk_invariant s.utxo_set) (hacc : acc_block_fresh s) :
    pk_invariant ((s.apply_ready_block_stored_info crw).1).utxo_set ∧
      ((s.apply_ready_block_stored_info crw).1).current_block_stored_info =
        [] := by
  unfold ComputeConsensused.apply_ready_block_stored_info
    ComputeConsensused.take_ready_block_stored_info
  cases hm : max_by_votes s.current_block_stored_info with
  | none =>
    simp only [hm, Option.map_none']
    exact ⟨hinv, by trivial⟩
  | some e0 =>
    have hmem := max_by_votes_mem hm
    cases hf0 : e0.1 with
    | FirstBlock u =>
      simp only [hm, hf0, Option.map_some']
      exact ⟨hinv, by trivial⟩
    | Block info =>
      simp only [hm, hf0, Option.map_some']
      by_cases hc : s.special_handling = none ∧ info.shutdown
      · rw [if_pos hc]
        exact ⟨hinv, by trivial⟩
      · rw [if_neg hc]
        refine ⟨?_, by trivial⟩
        exact pk_invariant_extend _ _ (hacc e0 hmem info hf0) hinv

theorem received_commit_preserves (crw : Nat → Nat)
    (idx term proposer_id : Nat) (s : ComputeConsensused)
    (item : ComputeRaftItem) (hinv : pk_invariant s.utxo_set)
    (hacc : acc_block_fresh s) (hfresh : fresh_commit_item s item) :
    pk_invariant
        ((ComputeConsensused.received_commit crw idx term s proposer_id
            item).1).utxo_set ∧
      acc_block_fresh
        (ComputeConsensused.received_commit crw idx term s proposer_id
            item).1 := by
  unfold ComputeConsensused.received_commit
    ComputeConsensused.received_commit_proposal
  cases item with
  | FirstBlock utxo_set =>
    by_cases hfb :
        ({ s with last_committed_raft_idx_and_term := (idx, term)} :
          ComputeConsensused).is_first_block
    · simp only [hfb, if_true, ComputeConsensused.append_first_block_info]
      have hap := append_stored_info_preserves
        { s with last_committed_raft_idx_and_term := (idx, term) } proposer_id
        (.FirstBlock utxo_set) hinv hacc (by intro info h; cases h)
      by_cases hrdy :
          (({ s with last_committed_raft_idx_and_term := (idx, term)} :
              ComputeConsensused).append_current_block_stored_info proposer_id
            (.FirstBlock utxo_set)).has_block_stored_info_ready
      · simp only [hrdy, if_true]
        have := apply_ready_preserves crw _ hap.1 hap.2
        exact ⟨this.1, acc_block_fresh_of_nil _ this.2⟩
      · simp only [hrdy, if_false]
        exact hap
    · simp only [hfb, if_false]
      exact ⟨hinv, hacc⟩
  | Transactions txs => exact ⟨hinv, hacc⟩
  | DruidTransactions txs => exact ⟨hinv, hacc⟩
  | MiningParticipant addr => exact ⟨hinv, hacc⟩
  | WinningPoW addr info => exact ⟨hinv, hacc⟩
  | ParticipantIntakeClosed => exact ⟨hinv, hacc⟩
  | Block info =>
    by_cases hcb :
        ({ s with last_committed_raft_idx_and_term := (idx, term)} :
          ComputeConsensused).is_current_block info.block_num
    · simp only [hcb, if_true, ComputeConsensused.append_block_stored_info]
      have hap := append_stored_info_preserves
        { s with last_committed_raft_idx_and_term := (idx, term) } proposer_id
        (.Block info) hinv hacc
        (by
          intro info' h
          cases h
          exact hfresh)
      by_cases hrdy :
          (({ s with last_committed_raft_idx_and_term := (idx, term)} :
              ComputeConsensused).append_current_block_stored_info proposer_id
            (.Block info)).has_block_stored_info_ready
      · simp only [hrdy, if_true]
        have := apply_ready_preserves crw _ hap.1 hap.2
        exact ⟨this.1, acc_block_fresh_of_nil _ this.2⟩
      · simp only [hrdy, if_false]
        exact hap
    · simp only [hcb, if_false]
      exact ⟨hinv, hacc⟩

/-- Claim C2: the spec says every consensused state reachable by
`received_commit` calls survives the serialize/deserialize round trip
exactly. A `received_commit` sequence of a single-peer group — first block,
then two `Block` votes whose mining transactions share one transaction
hash — reaches a state (`c2_final`, a fold of `received_commit` from
startup) that does not: `BTreeMap::extend` overwrites the reused
forward-map binding while the incrementally maintained reverse index
appends a second entry, so deserialization, which recomputes the reverse
index from the serialized forward map alone, cannot reproduce the stale
entry and yields a different state. -/
theorem consensused_snapshot_roundtrip_fails_on_reused_outpoint :
    deserializeSnapshot c2_final.serializeSnapshot ≠ c2_final := by
  decide

/-- Claim C9: when the vote accumulator's quorum winner is a `Block` info
with the shutdown flag set and no special handling is active,
`apply_ready_block_stored_info` sets `special_handling` to `Shutdown` and
returns `block_num + 1`, while `tx_current_block_num`,
`tx_current_block_previous_hash`, the tracked UTXO set, the circulation, the
reward and the last mining-transaction hashes all keep their prior values. -/
theorem apply_ready_shutdown_bumps_without_advancing (crw : Nat → Nat)
    (s : ComputeConsensused) (info : BlockStoredInfo)
    (hwin : (max_by_votes s.current_block_stored_info).map Prod.fst =
      some (AccumulatingBlockStoredInfo.Block info))
    (hready : s.has_block_stored_info_ready = true)
    (hsd : info.shutdown = true) (hsh : s.special_handling = none) :
    (s.apply_ready_block_stored_info crw).2 = some (info.block_num + 1) ∧
    ((s.apply_ready_block_stored_info crw).1).special_handling =
      some SpecialHandling.Shutdown ∧
    ((s.apply_ready_block_stored_info crw).1).tx_current_block_num =
      s.tx_current_block_num ∧
    ((s.apply_ready_block_stored_info crw).1).tx_current_block_previous_hash =
      s.tx_current_block_previous_hash ∧
    ((s.apply_ready_block_stored_info crw).1).utxo_set = s.utxo_set ∧
    ((s.apply_ready_block_stored_info crw).1).current_circulation =
      s.current_circulation ∧
    ((s.apply_ready_block_stored_info crw).1).current_reward =
      s.current_reward ∧
    ((s.apply_ready_block_stored_info crw).1).last_mining_transaction_hashes =
      s.last_mining_transaction_hashes := by
  unfold ComputeConsensused.apply_ready_block_stored_info
    ComputeConsensused.take_ready_block_stored_info
  cases hm : max_by_votes s.current_block_stored_info with
  | none => rw [hm] at hwin; cases hwin
  | some e0 =>
    rw [hm, Option.map_some'] at hwin
    have hf0 : e0.1 = AccumulatingBlockStoredInfo.Block info :=
      Option.some.inj hwin
    simp only [hm, hf0, Option.map_some']
    rw [if_pos ⟨hsh, by simp [hsd]⟩]
    exact ⟨rfl, rfl, rfl, rfl, rfl, rfl, rfl, rfl⟩

theorem apply_ready_shutdown_bumps_without_advancing_witness :
    (c9_state.apply_ready_block_stored_info (fun _ => 0)).2 = some 1 ∧
    ((c9_state.apply_ready_block_stored_info
        (fun _ => 0)).1).special_handling = some SpecialHandling.Shutdown :=
  ⟨(apply_ready_shutdown_bumps_without_advancing (fun _ => 0) c9_state
      c9_info (by decide) (by decide) (by decide) (by decide)).1,
   (apply_ready_shutdown_bumps_without_advancing (fun _ => 0) c9_state
      c9_info (by decide) (by decide) (by decide) (by decide)).2.1⟩

/-- Claim C4 (counterexample): a fully valid `SendPoW` submission — matching
block number, cohort member, well-formed coinbase with the current reward,
passing proof of work — is accepted, yet `receive_pow` proposes no raft item
at all (in particular no `WinningPoW`): it records the mined block locally
instead. -/
theorem receive_pow_accepts_without_proposing :
    ComputeNode.receive_pow (fun _ => "cbh") (fun _ _ => "m")
        (fun _ _ _ => true) c4_node 7 0 [1] c4_coinbase =
      some (⟨true, "Received PoW successfully"⟩,
        c4_node.mining_block_mined [1] ("cbh", c4_coinbase), []) := by
  decide

/-- Claim C4 (amended): `receive_pow` aborts — the source indexes
`coinbase.outputs[0]` — exactly when the submission reaches the coinbase
check (the block number matches the block being mined and the peer is in
the cohort) with a coinbase that passes `is_coinbase` yet has an empty
output list; on every other rejected submission (block number mismatch or
no block being mined, peer outside the cohort, malformed coinbase, failing
proof of work) it returns a failure response and leaves the node —
consensus state included — untouched; and on an accepted submission it
responds with success and records the mined block via
`mining_block_mined`, proposing nothing (never a `WinningPoW`). -/
theorem receive_pow_characterized (cth : Transaction → String)
    (cmc : String → String → String)
    (vpb : String → String → List Nat → Bool) (node : ComputeNode)
    (address block_num : Nat) (nonce : List Nat) (coinbase : Transaction) :
    (ComputeNode.receive_pow cth cmc vpb node address block_num nonce
        coinbase = none ↔
      (∃ b, node.node_raft.consensused.current_block = some b ∧
        block_num = b.header.b_num ∧ address ∈ node.partition_list.2) ∧
      coinbase.is_coinbase = true ∧ coinbase.outputs = []) ∧
    (pow_submission_accepted cth cmc vpb node address block_num nonce
        coinbase = false →
      ComputeNode.receive_pow cth cmc vpb node address block_num nonce
          coinbase ≠ none →
      ((ComputeNode.receive_pow cth cmc vpb node address block_num nonce
          coinbase).map fun r => r.1.success) = some false ∧
      ((ComputeNode.receive_pow cth cmc vpb node address block_num nonce
          coinbase).map fun r => r.2.1) = some node ∧
      ((ComputeNode.receive_pow cth cmc vpb node address block_num nonce
          coinbase).map fun r => r.2.2) = some []) ∧
    (pow_submission_accepted cth cmc vpb node address block_num nonce
        coinbase = true →
      ComputeNode.receive_pow cth cmc vpb node address block_num nonce
          coinbase =
        some (⟨true, "Received PoW successfully"⟩,
          node.mining_block_mined nonce (cth coinbase, coinbase), [])) := by
  cases hb : node.node_raft.consensused.current_block with
  | none =>
    refine ⟨?_, ?_, ?_⟩
    · simp [ComputeNode.receive_pow, hb]
    · intro _ _
      simp [ComputeNode.receive_pow, hb]
    · intro hacc
      simp [pow_submission_accepted, hb] at hacc
  | some b =>
    by_cases hg1 : (block_num == b.header.b_num) = true
    · by_cases hg2 : address ∈ node.partition_list.2
      · by_cases hcb : coinbase.is_coinbase = true
        · cases houts : coinbase.outputs with
          | nil =>
            refine ⟨?_, ?_, ?_⟩
            · simp only [ComputeNode.receive_pow, hb]
              rw [if_pos ⟨hg1, hg2⟩]
              simp [hcb, houts, beq_iff_eq.mp hg1, hg2]
            · intro _ hne
              exfalso
              apply hne
              simp only [ComputeNode.receive_pow, hb]
              rw [if_pos ⟨hg1, hg2⟩]
              simp [hcb, houts]
            · intro hacc
              simp [pow_submission_accepted, hb, hg1, hg2, hcb, houts] at hacc
          | cons o rest =>
            by_cases hamt :
                (o.amount == node.node_raft.consensused.current_reward) = true
            · by_cases hpw : vpb (b.header.previous_hash.getD "")
                  (cmc b.header.merkle_root_hash (cth coinbase)) nonce = true
              · refine ⟨?_, ?_, ?_⟩
                · simp only [ComputeNode.receive_pow, hb]
                  rw [if_pos ⟨hg1, hg2⟩]
                  simp [hcb, houts, hamt, hpw]
                · intro hacc
                  exfalso
                  simp [pow_submission_accepted, hb, hg1, hg2, hcb, houts,
                    hamt, hpw] at hacc
                · intro _
                  simp only [ComputeNode.receive_pow, hb]
                  rw [if_pos ⟨hg1, hg2⟩]
                  simp [hcb, houts, hamt, hpw]
              · refine ⟨?_, ?_, ?_⟩
                · simp only [ComputeNode.receive_pow, hb]
                  rw [if_pos ⟨hg1, hg2⟩]
                  simp [hcb, houts, hamt, hpw]
                · intro _ _
                  simp only [ComputeNode.receive_pow, hb]
                  rw [if_pos ⟨hg1, hg2⟩]
                  simp [hcb, houts, hamt, hpw]
                · intro hacc
                  simp [pow_submission_accepted, hb, hg1, hg2, hcb, houts,
                    hamt, hpw] at hacc
            · refine ⟨?_, ?_, ?_⟩
              · simp only [ComputeNode.receive_pow, hb]
                rw [if_pos ⟨hg1, hg2⟩]
                simp [hcb, houts, hamt]
              · intro _ _
                simp only [ComputeNode.receive_pow, hb]
                rw [if_pos ⟨hg1, hg2⟩]
                simp [hcb, houts, hamt]
              · intro hacc
                simp [pow_submission_accepted, hb, hg1, hg2, hcb, houts,
                  hamt] at hacc
        · refine ⟨?_, ?_, ?_⟩
          · simp only [ComputeNode.receive_pow, hb]
            rw [if_pos ⟨hg1, hg2⟩]
            simp [hcb]
          · intro _ _
            simp only [ComputeNode.receive_pow, hb]
            rw [if_pos ⟨hg1, hg2⟩]
            simp [hcb]
          · intro hacc
            simp [pow_submission_accepted, hb, hg1, hg2, hcb] at hacc
      · refine ⟨?_, ?_, ?_⟩
        · simp only [ComputeNode.receive_pow, hb]
          rw [if_neg fun hand => hg2 hand.2]
          simp [hg2]
        · intro _ _
          simp only [ComputeNode.receive_pow, hb]
          rw [if_neg fun hand => hg2 hand.2]
          simp
        · intro hacc
          simp [pow_submission_accepted, hb, hg2] at hacc
    · refine ⟨?_, ?_, ?_⟩
      · simp only [ComputeNode.receive_pow, hb]
        rw [if_neg fun hand => hg1 hand.1]
        simp only [Nat.beq_eq_true_eq] at hg1
        simp [hg1]
      · intro _ _
        simp only [ComputeNode.receive_pow, hb]
        rw [if_neg fun hand => hg1 hand.1]
        simp
      · intro hacc
        simp [pow_submission_accepted, hb, hg1] at hacc

theorem receive_pow_characterized_witness :
    ((ComputeNode.receive_pow (fun _ => "cbh") (fun _ _ => "m")
        (fun _ _ _ => false) c4_node 7 0 [1] c4_coinbase).map
      fun r => r.2.1) = some c4_node :=
  ((receive_pow_characterized (fun _ => "cbh") (fun _ _ => "m")
      (fun _ _ _ => false) c4_node 7 0 [1] c4_coinbase).2.1 (by decide)
    (by decide)).2.1

theorem check_tx_inputs_isSome (base : UtxoSet) :
    ∀ (ins acc : List OutPoint),
    (check_tx_inputs base acc ins).isSome = true ↔
      ((∀ v ∈ ins, mcontains base v = true) ∧ (∀ v ∈ ins, v ∉ acc) ∧
        ins.Nodup) := by
  intro ins
  induction ins with
  | nil => intro acc; simp [check_tx_inputs]
  | cons v rest ih =>
    intro acc
    by_cases hc : mcontains base v = true ∧ v ∉ acc
    · rw [check_tx_inputs, if_pos hc, ih]
      constructor
      · rintro ⟨h1, h2, h3⟩
        refine ⟨?_, ?_, ?_⟩
        · intro w hw
          rcases List.mem_cons.mp hw with rfl | hw
          · exact hc.1
          · exact h1 w hw
        · intro w hw
          rcases List.mem_cons.mp hw with rfl | hw
          · exact hc.2
          · intro hwacc
            exact h2 w hw (List.mem_append_left _ hwacc)
        · refine List.nodup_cons.mpr ⟨?_, h3⟩
          intro hvrest
          exact h2 v hvrest (List.mem_append_right _ (List.mem_singleton.mpr rfl))
      · rintro ⟨h1, h2, h3⟩
        have hnd := List.nodup_cons.mp h3
        refine ⟨?_, ?_, hnd.2⟩
        · intro w hw
          exact h1 w (List.mem_cons_of_mem _ hw)
        · intro w hw hwapp
          rcases List.mem_append.mp hwapp with hwa | hwv
          · exact h2 w (List.mem_cons_of_mem _ hw) hwa
          · rw [List.mem_singleton.mp hwv] at hw
            exact hnd.1 hw
    · rw [check_tx_inputs, if_neg hc]
      simp only [Option.isSome_none, Bool.false_eq_true, false_iff]
      rintro ⟨h1, h2, -⟩
      exact hc ⟨h1 v (List.mem_cons_self _ _), h2 v (List.mem_cons_self _ _)⟩

theorem find_invalid_singleton (s : ComputeConsensused) (h : String)
    (tx : Transaction) :
    s.find_invalid_new_txs [(h, tx)] = [] ↔
      ((∀ v ∈ get_inputs_previous_out_point [tx],
          mcontains s.utxo_set.base v = true) ∧
        (get_inputs_previous_out_point [tx]).Nodup) := by
  unfold ComputeConsensused.find_invalid_new_txs
  simp only [List.foldl_cons, List.foldl_nil]
  cases hc : check_tx_inputs s.utxo_set.base []
      (get_inputs_previous_out_point [tx]) with
  | none =>
    simp only
    constructor
    · intro habs; cases habs
    · intro hr
      have := (check_tx_inputs_isSome s.utxo_set.base
        (get_inputs_previous_out_point [tx]) []).mpr ⟨hr.1, by simp, hr.2⟩
      rw [hc] at this
      cases this
  | some acc =>
    simp only
    constructor
    · intro _
      have := (check_tx_inputs_isSome s.utxo_set.base
        (get_inputs_previous_out_point [tx]) []).mp (by rw [hc]; rfl)
      exact ⟨this.1, this.2.2⟩
    · intro _; trivial

/-- Claim C6 (counterexample): a transaction spending a sanctioned outpoint
is rejected by the intake check (`transactions_validator`) yet is not
flagged by the block-generation purge (`find_invalid_new_txs`): the two
checks are not the same check. -/
theorem intake_and_purge_checks_are_not_the_same :
    ComputeNode.transactions_validator c6_node c6_tx = false ∧
    ComputeConsensused.find_invalid_new_txs c6_node.node_raft.consensused
      [("t", c6_tx)] = [] := by
  decide

/-- Claim C6 (amended): the intake check is as the claim describes — not
coinbase, every input's outpoint present, unsanctioned and with expired
locktime — but the purge check used during block generation is weaker: a
single transaction is purged exactly when some referenced outpoint is
absent from the UTXO snapshot or repeated within the transaction, with no
coinbase, sanction or locktime conditions; hence the checks differ, e.g. on
a spend of a sanctioned outpoint. -/
theorem tx_checks_differ :
    (∀ (s : ComputeConsensused) (h : String) (tx : Transaction),
      s.find_invalid_new_txs [(h, tx)] = [] ↔
        ((∀ v ∈ get_inputs_previous_out_point [tx],
            mcontains s.utxo_set.base v = true) ∧
          (get_inputs_previous_out_point [tx]).Nodup)) ∧
    (∃ (node : ComputeNode) (h : String) (tx : Transaction),
      node.transactions_validator tx = false ∧
      node.node_raft.consensused.find_invalid_new_txs [(h, tx)] = []) :=
  ⟨find_invalid_singleton,
   ⟨c6_node, "t", c6_tx, by decide, by decide⟩⟩

theorem tx_checks_differ_witness :
    ComputeConsensused.find_invalid_new_txs c6_state [("t", c6_tx)] = [] :=
  (tx_checks_differ.1 c6_state "t" c6_tx).mpr (by decide)

/-- Claim C7: `receive_partition_entry` rejects — leaving the node
unchanged — when the partition list already holds
`compute_partition_full_size` entries, or when the address mismatches, the
proof of work is invalid for `current_random_num`, or the peer was already
admitted; otherwise it appends the entry and the peer, answering with the
partition key set to the hash of the admitted entries in insertion order
exactly when the list just became full; the admitted list never exceeds the
full size. -/
theorem receive_partition_entry_characterized (fpa : Nat → String)
    (vpfa : ProofOfWork → Option (List Nat) → Bool)
    (gpek : List ProofOfWork → List Nat) (node : ComputeNode) (peer : Nat)
    (entry : ProofOfWork) :
    (node.partition_full_size ≤ node.partition_list.1.length →
      node.receive_partition_entry fpa vpfa gpek peer entry =
        (⟨false, "Partition list is already full"⟩, node)) ∧
    (node.partition_list.1.length < node.partition_full_size →
      ((fpa peer == entry.address) = false ∨
        vpfa entry (some node.current_random_num) = false ∨
        peer ∈ node.partition_list.2) →
      node.receive_partition_entry fpa vpfa gpek peer entry =
        (⟨false, "PoW received is invalid"⟩, node)) ∧
    (node.partition_list.1.length < node.partition_full_size →
      (fpa peer == entry.address) = true →
      vpfa entry (some node.current_random_num) = true →
      peer ∉ node.partition_list.2 →
      ((node.partition_list.1.length + 1 < node.partition_full_size →
        node.receive_partition_entry fpa vpfa gpek peer entry =
          (⟨true, "Partition PoW received successfully"⟩,
           { node with
             partition_list := (node.partition_list.1 ++ [entry],
               node.partition_list.2 ++ [peer]) })) ∧
       (node.partition_list.1.length + 1 = node.partition_full_size →
        node.receive_partition_entry fpa vpfa gpek peer entry =
          (⟨true, "Partition list is full"⟩,
           { node with
             partition_list := (node.partition_list.1 ++ [entry],
               node.partition_list.2 ++ [peer])
             partition_key :=
               some (gpek (node.partition_list.1 ++ [entry])) })))) ∧
    (node.partition_list.1.length ≤ node.partition_full_size →
      (node.receive_partition_entry fpa vpfa gpek peer
          entry).2.partition_list.1.length ≤ node.partition_full_size) := by
  refine ⟨?_, ?_, ?_, ?_⟩
  · intro hfull
    simp [ComputeNode.receive_partition_entry, if_pos hfull]
  · intro hlt hbad
    have hnfull : ¬ node.partition_full_size ≤ node.partition_list.1.length :=
      by omega
    rcases hbad with haddr | hv | hmem
    · simp [ComputeNode.receive_partition_entry, if_neg hnfull, haddr]
    · simp [ComputeNode.receive_partition_entry, if_neg hnfull, hv]
    · by_cases hvp : (fpa peer == entry.address &&
          vpfa entry (some node.current_random_num)) = true
      · simp [ComputeNode.receive_partition_entry, if_neg hnfull, hvp,
          sinsert, hmem]
      · simp only [Bool.not_eq_true] at hvp
        simp [ComputeNode.receive_partition_entry, if_neg hnfull, hvp]
  · intro hlt haddr hv hmem
    have hnfull : ¬ node.partition_full_size ≤ node.partition_list.1.length :=
      by omega
    constructor
    · intro hlt2
      have hlt2' : node.partition_list.1.length + 1 <
          node.partition_full_size := hlt2
      simp [ComputeNode.receive_partition_entry, if_neg hnfull, haddr, hv,
        sinsert, hmem, hlt2']
    · intro heq
      have hne : ¬ (node.partition_list.1.length + 1 <
          node.partition_full_size) := by omega
      simp [ComputeNode.receive_partition_entry, if_neg hnfull, haddr, hv,
        sinsert, hmem, hne]
  · intro hK
    by_cases hfull : node.partition_full_size ≤ node.partition_list.1.length
    · simp [ComputeNode.receive_partition_entry, if_pos hfull]
      exact hK
    · by_cases hvp : (fpa peer == entry.address &&
          vpfa entry (some node.current_random_num)) = true
      · by_cases hmem : peer ∈ node.partition_list.2
        · simp [ComputeNode.receive_partition_entry, if_neg hfull, hvp,
            sinsert, hmem]
          exact hK
        · simp only [ComputeNode.receive_partition_entry, if_neg hfull, hvp,
            sinsert, hmem, if_true, if_false, Bool.and_self]
          split
          · simp
            omega
          · simp
            omega
      · simp only [Bool.not_eq_true] at hvp
        simp [ComputeNode.receive_partition_entry, if_neg hfull, hvp]
        exact hK

theorem receive_partition_entry_characterized_witness :
    ComputeNode.receive_partition_entry (fun _ => "") (fun _ _ => true)
      (fun _ => []) c6_node 3 ⟨"", []⟩ =
      (⟨false, "Partition list is already full"⟩, c6_node) :=
  (receive_partition_entry_characterized (fun _ => "") (fun _ _ => true)
    (fun _ => []) c6_node 3 ⟨"", []⟩).1 (by decide)

theorem minsert_length_le {α β : Type} [DecidableEq α] (l : List (α × β))
    (k : α) (v : β) : (minsert l k v).length ≤ l.length + 1 := by
  induction l with
  | nil => simp [minsert]
  | cons p rest ih =>
    obtain ⟨a, b⟩ := p
    by_cases hak : a = k
    · simp [minsert, hak]
    · simp only [minsert, if_neg hak, List.length_cons]
      omega

theorem mextend_length_le {α β : Type} [DecidableEq α] :
    ∀ (adds l : List (α × β)), (mextend l adds).length ≤ l.length + adds.length
  | [], l => by simp [mextend]
  | a :: rest, l => by
    have h1 := minsert_length_le l a.1 a.2
    have h2 := mextend_length_le rest (minsert l a.1 a.2)
    have h3 : mextend l (a :: rest) = mextend (minsert l a.1 a.2) rest := by
      simp [mextend]
    rw [h3]
    simp only [List.length_cons]
    omega

theorem received_commit_transactions_eq (crw : Nat → Nat)
    (idx term proposer_id : Nat) (s : ComputeConsensused)
    (txs : List (String × Transaction)) :
    (ComputeConsensused.received_commit crw idx term s proposer_id
        (.Transactions txs)).1 =
      { s with
        last_committed_raft_idx_and_term := (idx, term)
        tx_pool := mappend s.tx_pool txs } := rfl

theorem apply_ready_tx_pool (crw : Nat → Nat) (s : ComputeConsensused) :
    ((s.apply_ready_block_stored_info crw).1).tx_pool = s.tx_pool := by
  unfold ComputeConsensused.apply_ready_block_stored_info
    ComputeConsensused.take_ready_block_stored_info
  cases hm : max_by_votes s.current_block_stored_info with
  | none => simp only [hm, Option.map_none']
  | some e0 =>
    cases hf0 : e0.1 with
    | FirstBlock u => simp only [hm, hf0, Option.map_some']
    | Block info =>
      simp only [hm, hf0, Option.map_some']
      by_cases hc : s.special_handling = none ∧ info.shutdown
      · rw [if_pos hc]
      · rw [if_neg hc]

theorem received_commit_other_tx_pool (crw : Nat → Nat)
    (idx term proposer_id : Nat) (s : ComputeConsensused)
    (item : ComputeRaftItem)
    (hni : ∀ txs, item ≠ ComputeRaftItem.Transactions txs) :
    ((ComputeConsensused.received_commit crw idx term s proposer_id
        item).1).tx_pool = s.tx_pool := by
  unfold ComputeConsensused.received_commit
    ComputeConsensused.received_commit_proposal
  cases item with
  | Transactions txs => exact absurd rfl (hni txs)
  | DruidTransactions txs => rfl
  | MiningParticipant addr => rfl
  | WinningPoW addr info => rfl
  | ParticipantIntakeClosed => rfl
  | FirstBlock u =>
    by_cases hfb :
        ({ s with last_committed_raft_idx_and_term := (idx, term)} :
          ComputeConsensused).is_first_block
    · simp only [hfb, if_true, ComputeConsensused.append_first_block_info]
      by_cases hrdy :
          (({ s with last_committed_raft_idx_and_term := (idx, term)} :
              ComputeConsensused).append_current_block_stored_info proposer_id
            (.FirstBlock u)).has_block_stored_info_ready
      · simp only [hrdy, if_true]
        rw [apply_ready_tx_pool]
        rfl
      · simp only [hrdy, if_false]
        rfl
    · simp only [hfb, if_false]
      rfl
  | Block info =>
    by_cases hcb :
        ({ s with last_committed_raft_idx_and_term := (idx, term)} :
          ComputeConsensused).is_current_block info.block_num
    · simp only [hcb, if_true, ComputeConsensused.append_block_stored_info]
      by_cases hrdy :
          (({ s with last_committed_raft_idx_and_term := (idx, term)} :
              ComputeConsensused).append_current_block_stored_info proposer_id
            (.Block info)).has_block_stored_info_ready
      · simp only [hrdy, if_true]
        rw [apply_ready_tx_pool]
        rfl
      · simp only [hrdy, if_false]
        rfl
    · simp only [hcb, if_false]
      rfl

theorem update_committed_dde_tx_tx_pool (s : ComputeConsensused) (b : Block)
    (btx : List (String × Transaction)) :
    ((s.update_committed_dde_tx b btx).1).tx_pool = s.tx_pool := by
  unfold ComputeConsensused.update_committed_dde_tx
  have aux : ∀ (l : List (List (String × Transaction)))
      (acc : ComputeConsensused × Block × List (String × Transaction)),
      ((l.foldl
        (fun acc txs =>
          if (acc.1.find_invalid_new_txs txs).isEmpty then
            acc.1.update_current_block_tx_with_given_valid_txs txs acc.2.1
              acc.2.2
          else acc) acc).1).tx_pool = acc.1.tx_pool := by
    intro l
    induction l with
    | nil => intro acc; rfl
    | cons x xs ih =>
      intro acc
      simp only [List.foldl_cons]
      rw [ih]
      by_cases hx : (acc.1.find_invalid_new_txs x).isEmpty = true
      · simp only [hx, if_true]
        rfl
      · simp only [Bool.not_eq_true] at hx
        simp only [hx]
        rfl
  exact aux s.tx_druid_pool _

theorem generate_block_tx_pool_le (block_size_in_tx : Nat)
    (cu : MiningPipelineInfo → List String → MiningPipelineInfo)
    (smr : Block → String) (s : ComputeConsensused) :
    (s.generate_block block_size_in_tx cu smr).tx_pool.length ≤
      s.tx_pool.length := by
  unfold ComputeConsensused.generate_block
    ComputeConsensused.update_current_block_tx
    ComputeConsensused.update_block_header
    ComputeConsensused.set_committed_mining_block
    ComputeConsensused.update_current_block_tx_with_given_valid_txs
    take_first_n
  simp only [List.length_drop]
  rw [update_committed_dde_tx_tx_pool]
  exact Nat.le_trans (Nat.sub_le _ _) (List.length_filter_le _ _)

theorem generate_first_block_tx_pool
    (cu : MiningPipelineInfo → List String → MiningPipelineInfo)
    (s : ComputeConsensused) :
    (s.generate_first_block cu).tx_pool = s.tx_pool := rfl

theorem propose_timeout_combined (nr : ComputeRaftState) :
    (nr.propose_local_transactions_at_timeout).1.combined_tx_pool_len =
      nr.combined_tx_pool_len := by
  unfold ComputeRaftState.propose_local_transactions_at_timeout take_first_n
  by_cases he : (nr.local_tx_pool.take
      (min
        (nr.proposed_and_consensused_tx_pool_len_max -
          nr.proposed_and_consensused_tx_pool_len)
        nr.proposed_tx_pool_len_max)).isEmpty = true
  · simp only [he]
    simp
  · simp only [Bool.not_eq_true] at he
    simp only [he]
    rw [if_neg Bool.false_ne_true]
    unfold ComputeRaftState.combined_tx_pool_len
      ComputeRaftState.proposed_and_consensused_tx_pool_len
    simp only [List.length_drop, List.length_take]
    omega

/-- Claim C8 (amended): `receive_transactions` rejects — adding nothing —
any batch whose length would push `combined_tx_pool_len` past the pool
limit, with the reason the claim states; and along the node's own pool
operations (intake, timeout proposals, commits of its own batches and of
non-transaction items, block generation) the combined pool length never
exceeds the limit. A committed `Transactions` batch of another proposer is
outside this bound: it is appended with no capacity check. -/
theorem tx_pool_cap (tx_pool_limit : Nat) :
    (∀ (node : ComputeNode) (cth : Transaction → String)
      (txs : List Transaction),
      node.node_raft.tx_pool_can_accept tx_pool_limit txs.length = false →
      node.receive_transactions tx_pool_limit cth txs =
        (⟨false, "Transaction pool for this compute node is full"⟩, node)) ∧
    (∀ node : ComputeNode, TxPoolReachable tx_pool_limit node →
      node.node_raft.combined_tx_pool_len ≤ tx_pool_limit) := by
  have hrej : ∀ (node : ComputeNode) (cth : Transaction → String)
      (txs : List Transaction),
      node.node_raft.tx_pool_can_accept tx_pool_limit txs.length = false →
      node.receive_transactions tx_pool_limit cth txs =
        (⟨false, "Transaction pool for this compute node is full"⟩, node) := by
    intro node cth txs h
    unfold ComputeNode.receive_transactions
    simp [h]
  refine ⟨hrej, ?_⟩
  intro node h
  induction h with
  | init node h1 h2 h3 =>
    unfold ComputeRaftState.combined_tx_pool_len
      ComputeRaftState.proposed_and_consensused_tx_pool_len
    rw [h1, h2, h3]
    simp
  | receive node cth txs h ih =>
    by_cases hacc :
        node.node_raft.tx_pool_can_accept tx_pool_limit txs.length = true
    · have hle : node.node_raft.combined_tx_pool_len + txs.length ≤
          tx_pool_limit := by
        unfold ComputeRaftState.tx_pool_can_accept at hacc
        exact of_decide_eq_true hacc
      have hbound : (node.node_raft.append_to_tx_pool
          (mextend []
            ((txs.filter node.transactions_validator).map fun tx =>
              (cth tx, tx)))).combined_tx_pool_len ≤ tx_pool_limit := by
        have hva := mextend_length_le
          ((txs.filter node.transactions_validator).map fun tx =>
            (cth tx, tx)) ([] : List (String × Transaction))
        have hv : ((txs.filter node.transactions_validator).map fun tx =>
            (cth tx, tx)).length ≤ txs.length := by
          rw [List.length_map]
          exact List.length_filter_le _ _
        have hm := mextend_length_le
          (mextend []
            ((txs.filter node.transactions_validator).map fun tx =>
              (cth tx, tx))) node.node_raft.local_tx_pool
        unfold ComputeRaftState.append_to_tx_pool mappend
          ComputeRaftState.combined_tx_pool_len
          ComputeRaftState.proposed_and_consensused_tx_pool_len at *
        simp only [List.length_nil] at hva
        dsimp only
        omega
      unfold ComputeNode.receive_transactions
      dsimp only
      simp only [hacc, Bool.not_true]
      rw [if_neg Bool.false_ne_true]
      split
      · exact hbound
      · split
        · exact hbound
        · exact hbound
    · simp only [Bool.not_eq_true] at hacc
      rw [hrej node cth txs hacc]
      exact ih
  | propose node h ih =>
    have hpt := propose_timeout_combined node.node_raft
    simp only [ComputeRaftState.combined_tx_pool_len,
      ComputeRaftState.proposed_and_consensused_tx_pool_len] at hpt ih ⊢
    omega
  | commit_own node crw idx term proposer_id txs h hlen ih =>
    have hm := mextend_length_le txs node.node_raft.consensused.tx_pool
    simp only [ComputeRaftState.received_commit_own_transactions,
      received_commit_transactions_eq, ComputeRaftState.combined_tx_pool_len,
      ComputeRaftState.proposed_and_consensused_tx_pool_len, mappend] at ih ⊢
    omega
  | commit_other node crw idx term proposer_id item h hni ih =>
    have htx := received_commit_other_tx_pool crw idx term proposer_id
      node.node_raft.consensused item hni
    simp only [ComputeRaftState.received_commit_other,
      ComputeRaftState.combined_tx_pool_len,
      ComputeRaftState.proposed_and_consensused_tx_pool_len] at ih ⊢
    rw [htx]
    omega
  | generate node block_size_in_tx cu smr h ih =>
    have hgb := generate_block_tx_pool_le block_size_in_tx cu smr
      node.node_raft.consensused
    simp only [ComputeRaftState.combined_tx_pool_len,
      ComputeRaftState.proposed_and_consensused_tx_pool_len] at ih ⊢
    omega
  | generate_first node cu h ih =>
    have hgf := generate_first_block_tx_pool cu node.node_raft.consensused
    simp only [ComputeRaftState.combined_tx_pool_len,
      ComputeRaftState.proposed_and_consensused_tx_pool_len] at ih ⊢
    rw [hgf]
    omega

theorem tx_pool_cap_witness :
    (ComputeNode.receive_transactions 0 (fun _ => "t") c6_node [c6_tx] =
      (⟨false, "Transaction pool for this compute node is full"⟩,
       c6_node)) ∧
    c6_node.node_raft.combined_tx_pool_len ≤ 0 :=
  ⟨(tx_pool_cap 0).1 c6_node (fun _ => "t") [c6_tx] (by decide),
   (tx_pool_cap 0).2 c6_node (TxPoolReachable.init c6_node rfl rfl rfl)⟩

/-- Claim C8 (counterexample): `combined_tx_pool_len ≤ TX_POOL_LIMIT` does
not hold at all times in a multi-proposer run. Under pool limit `1`, a
batch of one valid transaction is accepted at intake, filling the combined
pool to the limit; committing another proposer's one-transaction batch —
which `received_commit_proposal` appends to the consensused pool with no
capacity check — then pushes `combined_tx_pool_len` to `2`, past the
limit. -/
theorem remote_transactions_commit_exceeds_tx_pool_limit :
    (c8_node0.receive_transactions 1 (fun _ => "t") [c8_tx]).1.success =
      true ∧
    c8_node1.node_raft.combined_tx_pool_len = 1 ∧
    c8_state2.combined_tx_pool_len = 2 := by
  decide

end ZNP
